import Mathlib

/-!
Verification development for the minion assistant core (src/unnamed/part_001).

The TypeScript source is shallowly embedded: SQLite tables become Lean lists
of row structures, prepared statements become pure functions on those lists,
the promise-based control flow of the dispatcher, the chat serialization
queue, the subprocess runner and the scheduler become explicit state-passing
functions or folds over event lists, and wall-clock timestamps become a Nat
clock threaded through the state.  JavaScript string operations (slice,
trim, ||) are modelled on Lean String via its character data.
-/

namespace Minion

-- ── String helpers (part_001 lines 151-186) ──────────────────────────

/-- Embeds truncateText (line 175): text.slice(0, maxChars) when too long. -/
def truncateText (text : String) (maxChars : Nat) : String :=
  if text.length ≤ maxChars then text else ⟨text.data.take maxChars⟩

/-- Embeds appendTail (line 179): append then keep the last maxChars characters. -/
def appendTail (existing incoming : String) (maxChars : Nat) : String :=
  let combined := existing ++ incoming
  if combined.length ≤ maxChars then combined
  else ⟨combined.data.drop (combined.length - maxChars)⟩

/-- Embeds the JavaScript s.slice(-n): the last n characters (whole string when shorter). -/
def sliceLast (s : String) (n : Nat) : String :=
  ⟨s.data.drop (s.length - n)⟩

/-- Embeds the JavaScript a || b on strings: b when a is empty, else a. -/
def jsOrElse (a b : String) : String :=
  if a = "" then b else a

def REQUEST_EXCERPT_MAX_CHARS : Nat := 200
def JOB_RESULT_MAX_CHARS : Nat := 50000
def JOB_ERROR_MAX_CHARS : Nat := 10000
def CLAUDE_STDOUT_TAIL_MAX : Nat := 200000
def CLAUDE_STDERR_TAIL_MAX : Nat := 50000
def CLAUDE_TIMEOUT_MS : Nat := 300000

-- ── Job rows and queries (part_001 lines 41-253) ─────────────────────

inductive JobStatus
  | queued
  | running
  | succeeded
  | failed
deriving DecidableEq, Repr

/-- Embeds a row of the jobs table (schema lines 41-53); timestamps are a Nat clock. -/
structure JobRow where
  id : Nat
  chat_id : String
  kind : String
  status : JobStatus
  input_json : String
  request_excerpt : String
  result_text : Option String
  error_text : Option String
  created_at : Nat
  started_at : Option Nat
  finished_at : Option Nat
deriving DecidableEq, Repr

/-- Embeds stmtGetJobByIdAndChat (lines 249-253): WHERE id = ? AND chat_id = ?. -/
def stmtGetJobByIdAndChat (jobId : Nat) (chatId : String) (jobs : List JobRow) : Option JobRow :=
  (jobs.filter (fun j => decide (j.id = jobId ∧ j.chat_id = chatId))).head?

/-- Descending id order used by stmtListJobsByChat (ORDER BY id DESC). -/
def jobIdDesc (a b : JobRow) : Prop := b.id ≤ a.id

instance : DecidableRel jobIdDesc := fun a b => Nat.decLe b.id a.id

instance : IsTotal JobRow jobIdDesc := ⟨fun a b => Nat.le_total b.id a.id⟩

instance : IsTrans JobRow jobIdDesc := ⟨fun _ _ _ h1 h2 => Nat.le_trans h2 h1⟩

/-- Embeds stmtListJobsByChat (lines 242-248): WHERE chat_id = ? ORDER BY id DESC LIMIT 10. -/
def stmtListJobsByChat (chatId : String) (jobs : List JobRow) : List JobRow :=
  ((jobs.filter (fun j => decide (j.chat_id = chatId))).insertionSort jobIdDesc).take 10

-- ── History rows and loadHistory (part_001 lines 259-305) ────────────

/-- Content block of a stored message (the loadHistory code only inspects the type tag
and, for merging, the text payload). -/
inductive CBlock
  | text (s : String)
  | tool_result
  | other (tag : String)
deriving DecidableEq, Repr

/-- Stored message content: either a plain JSON string or an array of blocks. -/
inductive Content
  | str (s : String)
  | blocks (bs : List CBlock)
deriving DecidableEq, Repr

structure HistoryRow where
  role : String
  content : Content
deriving DecidableEq, Repr

inductive MRole
  | user
  | assistant
deriving DecidableEq, Repr

structure MessageParam where
  role : MRole
  content : Content
deriving DecidableEq, Repr

/-- Embeds the array coercion in the merge branch (lines 281-282): a string content
becomes a singleton text block array. -/
def toBlocksArr : Content → List CBlock
  | .str s => [.text s]
  | .blocks bs => bs

/-- Embeds the same-role merge (lines 278-283): strings join with a newline, anything
else concatenates as block arrays. -/
def mergeContent (a b : Content) : Content :=
  match a, b with
  | .str sa, .str sb => .str (sa ++ "\n" ++ sb)
  | _, _ => .blocks (toBlocksArr a ++ toBlocksArr b)

/-- One step of the cleaning fold (lines 275-288); the accumulator is kept reversed so
its head is the `last` element the source mutates. -/
def mergeStep (acc : List MessageParam) (msg : MessageParam) : List MessageParam :=
  match acc with
  | last :: rest =>
    if last.role = msg.role then
      { role := last.role, content := mergeContent last.content msg.content } :: rest
    else
      msg :: last :: rest
  | [] => [msg]

/-- Embeds the alternation-enforcing merge pass of loadHistory (lines 274-288). -/
def mergeAlternating (msgs : List MessageParam) : List MessageParam :=
  (msgs.foldl mergeStep []).reverse

/-- Embeds the tool_result detection (line 297): only array contents can contain one. -/
def contentHasToolResult (c : Content) : Bool :=
  match c with
  | .str _ => false
  | .blocks bs => bs.any (fun b => match b with | .tool_result => true | _ => false)

/-- Embeds the leading-cleanup while loop of loadHistory (lines 291-302). -/
def dropLeadingInvalid : List MessageParam → List MessageParam
  | [] => []
  | first :: rest =>
    if first.role ≠ .user then dropLeadingInvalid rest
    else if contentHasToolResult first.content then dropLeadingInvalid rest
    else first :: rest

/-- Embeds the row-to-message mapping of loadHistory (lines 264-271): tool_results rows
materialize as user-role entries, unknown roles are skipped. -/
def rowToMessage (row : HistoryRow) : Option MessageParam :=
  if row.role = "user" then some ⟨.user, row.content⟩
  else if row.role = "assistant" then some ⟨.assistant, row.content⟩
  else if row.role = "tool_results" then some ⟨.user, row.content⟩
  else none

/-- Embeds loadHistory (lines 259-305).  The input is the row list as returned by the
SQL query (timestamp DESC), which the source reverses to chronological order. -/
def loadHistory (rows : List HistoryRow) : List MessageParam :=
  dropLeadingInvalid (mergeAlternating (rows.reverse.filterMap rowToMessage))

-- ── Chat serialization queue (part_001 lines 307-326) ────────────────

/-- A task handed to enqueueChatTask, abstracted by the history writes it performs
before settling and by whether its promise rejects. -/
structure ChatTask where
  writes : List String
  fails : Bool
deriving DecidableEq, Repr

inductive PromiseState
  | fulfilled
  | rejected
deriving DecidableEq, Repr

/-- Embeds a .catch handler that only logs (lines 312-314, 316-318): the resulting
promise is always fulfilled. -/
def catchLog : PromiseState → PromiseState
  | _ => .fulfilled

/-- Embeds .then(task) (line 315): the task runs only when the upstream promise is
fulfilled, and its own failure rejects the resulting promise. -/
def thenRun (p : PromiseState) (t : ChatTask) : PromiseState × List String :=
  match p with
  | .fulfilled => (if t.fails then .rejected else .fulfilled, t.writes)
  | .rejected => (.rejected, [])

/-- One link of the chain built by enqueueChatTask (lines 310-318):
previous.catch(log).then(task).catch(log). -/
def chainLink (p : PromiseState) (t : ChatTask) : PromiseState × List String :=
  let p1 := catchLog p
  let (p2, w) := thenRun p1 t
  (catchLog p2, w)

/-- One fold step of the sequential chain execution: settle the next link and append
the writes it performed. -/
def chainFold (st : PromiseState × List String) (t : ChatTask) : PromiseState × List String :=
  ((chainLink st.1 t).1, st.2 ++ (chainLink st.1 t).2)

/-- Sequential execution of the per-conversation promise chain: the source event loop
settles each link before the next task body starts. -/
def runChain (tasks : List ChatTask) : PromiseState × List String :=
  tasks.foldl chainFold (PromiseState.fulfilled, [])

/-- The in-memory chatQueues map (line 307), as an association list from chat id to the
tasks chained so far. -/
abbrev ChatQueues := List (String × List ChatTask)

def getQueue (qs : ChatQueues) (chatId : String) : List ChatTask :=
  match qs.find? (fun p => p.1 == chatId) with
  | some p => p.2
  | none => []

def setQueue (qs : ChatQueues) (chatId : String) (ts : List ChatTask) : ChatQueues :=
  match qs with
  | [] => [(chatId, ts)]
  | p :: rest => if p.1 == chatId then (chatId, ts) :: rest else p :: setQueue rest chatId ts

/-- Embeds enqueueChatTask (lines 309-326): chain the task onto the tail recorded for
this chat id and store the new tail.  The function returns at once (it is a pure state
update); nothing of the task outcome reaches the caller. -/
def enqueueChatTask (qs : ChatQueues) (chatId : String) (t : ChatTask) : ChatQueues :=
  setQueue qs chatId (getQueue qs chatId ++ [t])

def enqueueAll (qs : ChatQueues) (subs : List (String × ChatTask)) : ChatQueues :=
  subs.foldl (fun acc p => enqueueChatTask acc p.1 p.2) qs

-- ── Scheduler (part_001 lines 227, 1117-1138) ────────────────────────

/-- Embeds a row of the scheduled_tasks table (schema lines 25-35). -/
structure STask where
  id : Nat
  name : String
  cron_expression : String
  prompt : String
  chat_id : String
  enabled : Bool
  last_run : Option Nat
  next_run : Option Nat
deriving DecidableEq, Repr

/-- Embeds the due filter (line 1120): enabled = 1 AND next_run <= now; a NULL
next_run compares to nothing in SQL and is never selected. -/
def isDue (now : Nat) (t : STask) : Bool :=
  t.enabled &&
    match t.next_run with
    | some nr => decide (nr ≤ now)
    | none => false

/-- Observable actions of one scheduler tick, in program order. -/
inductive TickEvent
  | updateTaskRun (taskId : Nat) (lastRun nextRun : Nat)
  | submitTurn (taskId : Nat) (chatId : String) (prompt : String)
deriving DecidableEq, Repr

/-- Embeds stmtUpdateTaskRun (line 227): UPDATE scheduled_tasks SET last_run = ?,
next_run = ? WHERE id = ?. -/
def stmtUpdateTaskRun (tasks : List STask) (lastRun nextRun : Nat) (taskId : Nat) : List STask :=
  tasks.map (fun t =>
    if t.id = taskId then { t with last_run := some lastRun, next_run := some nextRun } else t)

/-- Body of the for loop over due tasks (lines 1123-1137): write the advanced
last_run / next_run to the store, then submit the conversational turn; the event
list records that order. -/
def schedTickStep (nextCron : String → Nat → Nat) (now : Nat)
    (st : List STask × List TickEvent) (task : STask) : List STask × List TickEvent :=
  (stmtUpdateTaskRun st.1 now (nextCron task.cron_expression now) task.id,
   st.2 ++ [TickEvent.updateTaskRun task.id now (nextCron task.cron_expression now),
            TickEvent.submitTurn task.id task.chat_id task.prompt])

/-- Embeds one scheduler tick (lines 1117-1138).  getNextCronRun is abstracted as the
nextCron argument (cron_parser is an external library); the due set is computed once
from the store snapshot, then each due task is claimed and submitted in order. -/
def schedulerTick (nextCron : String → Nat → Nat) (now : Nat) (tasks : List STask) :
    List STask × List TickEvent :=
  (tasks.filter (isDue now)).foldl (schedTickStep nextCron now) (tasks, [])

/-- The scheduled_tasks row with the given id, as find? sees it. -/
def findTask (tasks : List STask) (taskId : Nat) : Option STask :=
  tasks.find? (fun t => t.id == taskId)

/-- The pair of events one due task contributes to a tick, claim first. -/
def taskTickEvents (nextCron : String → Nat → Nat) (now : Nat) (u : STask) :
    List TickEvent :=
  [TickEvent.updateTaskRun u.id now (nextCron u.cron_expression now),
   TickEvent.submitTurn u.id u.chat_id u.prompt]

def isSubmitFor (taskId : Nat) (e : TickEvent) : Bool :=
  match e with
  | .submitTurn tid _ _ => tid == taskId
  | _ => false

-- ── Retry helper and agent loop (part_001 lines 852-948) ─────────────

/-- An error raised by a messages.create call; the source distinguishes
Anthropic.RateLimitError instances from everything else (line 941). -/
inductive ApiErr
  | rateLimit (m : String)
  | generic (m : String)
deriving DecidableEq, Repr

def ApiErr.msg : ApiErr → String
  | .rateLimit m => m
  | .generic m => m

/-- Embeds the backoff computation (line 942): 5000*(i+1) for rate limits,
1000*(i+1) otherwise, where i is the zero-based attempt index. -/
def retryDelay (e : ApiErr) (i : Nat) : Nat :=
  match e with
  | .rateLimit _ => 5000 * (i + 1)
  | .generic _ => 1000 * (i + 1)

/-- Loop body of callWithRetry (lines 935-948): rem counts the iterations the
for-loop guard i < retries still allows, so rem = retries - i; the attempts argument
gives the outcome of each sequential call, and the returned list collects the sleeps
performed between attempts.  Exhausting rem without a body run reaches the final
unreachable throw of line 947. -/
def callWithRetryGo (attempts : Nat → Except ApiErr α) (retries : Nat) :
    Nat → Nat → List Nat → Except ApiErr α × List Nat
  | 0, _, delays => (.error (.generic "Unreachable"), delays)
  | rem + 1, i, delays =>
    match attempts i with
    | .ok v => (.ok v, delays)
    | .error e =>
      if i = retries - 1 then (.error e, delays)
      else callWithRetryGo attempts retries rem (i + 1) (delays ++ [retryDelay e i])

/-- Embeds callWithRetry (lines 935-948) with its default of 3 attempts unless
overridden. -/
def callWithRetry (attempts : Nat → Except ApiErr α) (retries : Nat := 3) :
    Except ApiErr α × List Nat :=
  callWithRetryGo attempts retries retries 0 []

inductive StopReason
  | end_turn
  | max_tokens
  | pause_turn
  | tool_use
deriving DecidableEq, Repr

/-- An LLM response as the agent loop inspects it: the stop reason and the joined
text of its text blocks. -/
structure LLMResponse where
  stop_reason : StopReason
  text : String
deriving DecidableEq, Repr

/-- Embeds the iteration while loop of runAgentLoop (lines 862-931) from iteration i.
llmAttempts gives, for iteration i and attempt k, the outcome of the wrapped
messages.create call; a retry-exhausted failure returns the plain API error string
(line 878), end_turn and max_tokens return the joined text with the empty-result
placeholder (lines 889-895), and pause_turn and tool_use continue iterating. -/
def runAgentLoopGo (llmAttempts : Nat → Nat → Except ApiErr LLMResponse) :
    Nat → Nat → String
  | 0, _ => "⚠️ Hit max iterations. Task may be incomplete."
  | rem + 1, i =>
    match (callWithRetry (llmAttempts i)).1 with
    | .error e => "API error: " ++ e.msg
    | .ok resp =>
      match resp.stop_reason with
      | .end_turn => jsOrElse resp.text "(no response)"
      | .max_tokens => jsOrElse resp.text "(no response)"
      | .pause_turn => runAgentLoopGo llmAttempts rem (i + 1)
      | .tool_use => runAgentLoopGo llmAttempts rem (i + 1)

/-- Embeds runAgentLoop (lines 852-931) restricted to its LLM-call control flow; the
while guard iterations < CONFIG.MAX_TOOL_ITERATIONS is carried as the remaining
iteration budget. -/
def runAgentLoop (llmAttempts : Nat → Nat → Except ApiErr LLMResponse) (maxIter : Nat) :
    String :=
  runAgentLoopGo llmAttempts maxIter 0

-- ── Subprocess runner (part_001 lines 188-213, 366-438) ──────────────

/-- The shape of one parsed stream-json line as parseClaudeStreamLine inspects it:
a final result record, an assistant message with content blocks, or anything else. -/
inductive StreamMsg
  | resultMsg (result : String)
  | assistantMsg (blocks : List CBlock)
  | otherMsg
deriving DecidableEq, Repr

/-- Embeds the accumulator interface (lines 101-105). -/
structure ClaudeStreamAccumulator where
  resultText : String
  stdoutTail : String
  stderrTail : String
deriving DecidableEq, Repr

/-- Embeds parseClaudeStreamLine (lines 188-213).  JSON.parse is abstracted as the
parseJson argument; none models a parse exception, which the source swallows.  A
result record overwrites resultText; every text block of an assistant record
overwrites it in order; anything else is ignored. -/
def parseClaudeStreamLine (parseJson : String → Option StreamMsg) (line : String)
    (acc : ClaudeStreamAccumulator) : ClaudeStreamAccumulator :=
  match parseJson line with
  | none => acc
  | some .otherMsg => acc
  | some (.resultMsg r) => { acc with resultText := r }
  | some (.assistantMsg blocks) =>
    blocks.foldl
      (fun a b =>
        match b with
        | .text s => { a with resultText := s }
        | _ => a)
      acc

/-- Splits character data at the first newline, mirroring indexOf plus slice
(lines 395-400). -/
def splitAtNewline : List Char → Option (List Char × List Char)
  | [] => none
  | c :: rest =>
    if c = '\n' then some ([], rest)
    else (splitAtNewline rest).map (fun p => (c :: p.1, p.2))

/-- Body of the line-consuming while loop of the stdout data handler (lines 395-401):
pull complete lines off the buffer, trim each, and parse the non-empty ones.  Each
round removes at least the newline character, so one unit of fuel per buffered
character is always enough. -/
def processLinesGo (parseJson : String → Option StreamMsg) :
    Nat → List Char → ClaudeStreamAccumulator → List Char × ClaudeStreamAccumulator
  | 0, buffer, acc => (buffer, acc)
  | fuel + 1, buffer, acc =>
    match splitAtNewline buffer with
    | none => (buffer, acc)
    | some (l, rest) =>
      let line := (String.mk l).trim
      let acc1 := if line ≠ "" then parseClaudeStreamLine parseJson line acc else acc
      processLinesGo parseJson fuel rest acc1

/-- Embeds the line-consuming while loop (lines 395-401). -/
def processLines (parseJson : String → Option StreamMsg) (buffer : List Char)
    (acc : ClaudeStreamAccumulator) : List Char × ClaudeStreamAccumulator :=
  processLinesGo parseJson buffer.length buffer acc

/-- Events delivered to the handlers installed by runClaudeCodeProcess, in arrival
order on the node event loop. -/
inductive ProcEvent
  | stdoutData (chunk : String)
  | stderrData (chunk : String)
  | timerFire
  | spawnErr (m : String)
  | close (code : Option Int) (signal : Option String)
deriving DecidableEq, Repr

def isDataEvent (e : ProcEvent) : Bool :=
  match e with
  | .stdoutData _ => true
  | .stderrData _ => true
  | _ => false

instance {ε α : Type} [DecidableEq ε] [DecidableEq α] : DecidableEq (Except ε α) := fun a b =>
  match a, b with
  | .ok x, .ok y => if h : x = y then .isTrue (by rw [h]) else .isFalse (by simp [h])
  | .error x, .error y => if h : x = y then .isTrue (by rw [h]) else .isFalse (by simp [h])
  | .ok _, .error _ => .isFalse (by simp)
  | .error _, .ok _ => .isFalse (by simp)

/-- State owned by one runClaudeCodeProcess invocation (lines 370-373), plus the
observable outcome of its promise and the kill signals sent to the child. -/
structure RunnerState where
  acc : ClaudeStreamAccumulator
  stdoutBuffer : List Char
  timedOut : Bool
  settled : Bool
  outcome : Option (Except String String)
  signals : List String
deriving DecidableEq, Repr

def initRunnerState : RunnerState :=
  { acc := ⟨"", "", ""⟩, stdoutBuffer := [], timedOut := false, settled := false,
    outcome := none, signals := [] }

/-- Renders the exit code the way String(code) does, null included. -/
def codeString : Option Int → String
  | some c => toString c
  | none => "null"

/-- Embeds the zero-exit result selection (line 429): resultText, else the last 5000
characters of the stdout tail, else the placeholder, truncated to the result budget. -/
def zeroExitResult (acc : ClaudeStreamAccumulator) : String :=
  truncateText (jsOrElse acc.resultText (jsOrElse (sliceLast acc.stdoutTail 5000) "(no result)"))
    JOB_RESULT_MAX_CHARS

/-- Embeds the non-zero-exit diagnostic (lines 434-435). -/
def abnormalExitMsg (acc : ClaudeStreamAccumulator) (code : Option Int)
    (signal : Option String) : String :=
  let errTail := truncateText
    (jsOrElse acc.stderrTail
      (jsOrElse acc.stdoutTail ("Process exited with code " ++ codeString code))) 5000
  "Claude Code exited with code " ++ codeString code ++
    (match signal with | some s => " (" ++ s ++ ")" | none => "") ++ ": " ++ errTail

/-- One event handler dispatch of runClaudeCodeProcess (lines 384-436).  The stdout
handler appends to the bounded tail and consumes complete lines; the stderr handler
appends to its tail; the timer marks timedOut and sends SIGTERM then a SIGKILL
scheduled five seconds later; the error and close handlers settle the promise at most
once, close preferring the timeout rejection over any exit code and resolving a zero
exit through zeroExitResult after parsing any leftover buffered line. -/
def stepEvent (parseJson : String → Option StreamMsg) (st : RunnerState) (e : ProcEvent) :
    RunnerState :=
  match e with
  | .stdoutData chunk =>
    let acc1 := { st.acc with
      stdoutTail := appendTail st.acc.stdoutTail chunk CLAUDE_STDOUT_TAIL_MAX }
    { st with
        acc := (processLines parseJson (st.stdoutBuffer ++ chunk.data) acc1).2
        stdoutBuffer := (processLines parseJson (st.stdoutBuffer ++ chunk.data) acc1).1 }
  | .stderrData chunk =>
    { st with acc := { st.acc with
      stderrTail := appendTail st.acc.stderrTail chunk CLAUDE_STDERR_TAIL_MAX } }
  | .timerFire =>
    if st.settled then st
    else { st with timedOut := true, signals := st.signals ++ ["SIGTERM", "SIGKILL"] }
  | .spawnErr m =>
    if st.settled then st
    else
      { st with
          settled := true
          outcome := some (.error ("Claude Code spawn error: " ++ m)) }
  | .close code signal =>
    if st.settled then st
    else
      let leftover := (String.mk st.stdoutBuffer).trim
      let acc := if leftover ≠ "" then parseClaudeStreamLine parseJson leftover st.acc
                 else st.acc
      if st.timedOut then
        { st with
            settled := true
            acc := acc
            outcome := some (.error "Claude Code timed out after 300 seconds.") }
      else if code = some 0 then
        { st with
            settled := true
            acc := acc
            outcome := some (.ok (zeroExitResult acc)) }
      else
        { st with
            settled := true
            acc := acc
            outcome := some (.error (abnormalExitMsg acc code signal)) }

/-- The whole promise execution: fold the event sequence from the fresh state. -/
def runEvents (parseJson : String → Option StreamMsg) (evs : List ProcEvent) : RunnerState :=
  evs.foldl (stepEvent parseJson) initRunnerState

-- ── Job dispatcher (part_001 lines 229-253, 440-516) ─────────────────

/-- Helper shared by the UPDATE statements: apply f to the row whose id matches. -/
def updateById (jobs : List JobRow) (jobId : Nat) (f : JobRow → JobRow) : List JobRow :=
  jobs.map (fun j => if j.id = jobId then f j else j)

/-- Embeds stmtSelectNextQueuedJob (lines 232-238): the queued row with the least id. -/
def stmtSelectNextQueuedJob (jobs : List JobRow) : Option JobRow :=
  (jobs.filter (fun j => decide (j.status = .queued))).argmin JobRow.id

/-- Field update of stmtMarkJobRunning (line 239). -/
def markRunningFn (startedAt : Nat) (j : JobRow) : JobRow :=
  { j with status := .running, started_at := some startedAt, finished_at := none,
           error_text := none }

/-- Embeds stmtMarkJobRunning (line 239). -/
def stmtMarkJobRunning (jobs : List JobRow) (startedAt : Nat) (jobId : Nat) : List JobRow :=
  updateById jobs jobId (markRunningFn startedAt)

/-- Field update of stmtMarkJobSucceeded (line 240). -/
def markSucceededFn (resultText : String) (finishedAt : Nat) (j : JobRow) : JobRow :=
  { j with status := .succeeded, result_text := some resultText, error_text := none,
           finished_at := some finishedAt }

/-- Embeds stmtMarkJobSucceeded (line 240). -/
def stmtMarkJobSucceeded (jobs : List JobRow) (resultText : String) (finishedAt : Nat)
    (jobId : Nat) : List JobRow :=
  updateById jobs jobId (markSucceededFn resultText finishedAt)

/-- Field update of stmtMarkJobFailed (line 241); note result_text is left untouched. -/
def markFailedFn (errorText : String) (finishedAt : Nat) (j : JobRow) : JobRow :=
  { j with status := .failed, error_text := some errorText, finished_at := some finishedAt }

/-- Embeds stmtMarkJobFailed (line 241). -/
def stmtMarkJobFailed (jobs : List JobRow) (errorText : String) (finishedAt : Nat)
    (jobId : Nat) : List JobRow :=
  updateById jobs jobId (markFailedFn errorText finishedAt)

def queuedCount (jobs : List JobRow) : Nat :=
  List.countP (fun j => decide (j.status = .queued)) jobs

def runningCount (jobs : List JobRow) : Nat :=
  List.countP (fun j => decide (j.status = .running)) jobs

/-- Completion header of the success notification body (line 490). -/
def successHeader (j : JobRow) : String :=
  "[Background job #" ++ toString j.id ++ " completed | kind=" ++ j.kind ++
    " | original request: " ++ j.request_excerpt ++ "]"

/-- Failure header of the failure notification body (line 499). -/
def failureHeader (j : JobRow) : String :=
  "[Background job #" ++ toString j.id ++ " failed | kind=" ++ j.kind ++
    " | original request: " ++ j.request_excerpt ++ "]"

/-- Persisted history body on success (line 491). -/
def successBody (j : JobRow) (storedResult : String) : String :=
  successHeader j ++ "\n\n" ++ storedResult

/-- Persisted history body on failure (line 500). -/
def failureBody (j : JobRow) (errorText : String) : String :=
  failureHeader j ++ "\n\n" ++ errorText

/-- Chat notification text on success (line 493). -/
def successNotification (j : JobRow) (storedResult : String) : String :=
  "✅ Job #" ++ toString j.id ++ " completed\n\n" ++ storedResult

/-- Chat notification text on failure (line 502). -/
def failureNotification (j : JobRow) (errorText : String) : String :=
  "❌ Job #" ++ toString j.id ++ " failed\n\n" ++ errorText

/-- The composite effect of one dispatcher iteration on the claimed row: marked
running at time t, then terminal at time t + 1 with the branch of the job outcome
(lines 474-503 compressed to the row level). -/
def finishFn (runJob : JobRow → Except String String) (j : JobRow) (t : Nat) : JobRow :=
  match runJob j with
  | .ok r => markSucceededFn (truncateText r JOB_RESULT_MAX_CHARS) (t + 1) (markRunningFn t j)
  | .error m => markFailedFn (truncateText m JOB_ERROR_MAX_CHARS) (t + 1) (markRunningFn t j)

/-- The history body the dispatcher persists for a job, by outcome (lines 491, 500). -/
def dispatchBody (runJob : JobRow → Except String String) (j : JobRow) : String :=
  match runJob j with
  | .ok r => successBody j (truncateText r JOB_RESULT_MAX_CHARS)
  | .error m => failureBody j (truncateText m JOB_ERROR_MAX_CHARS)

/-- The chat notification the dispatcher sends for a job, by outcome (lines 493, 502). -/
def dispatchNotification (runJob : JobRow → Except String String) (j : JobRow) : String :=
  match runJob j with
  | .ok r => successNotification j (truncateText r JOB_RESULT_MAX_CHARS)
  | .error m => failureNotification j (truncateText m JOB_ERROR_MAX_CHARS)

/-- State threaded through one processJobQueue run: the jobs table, a monotone clock
standing for new Date(), the saveMessage log as (chat_id, role, content) triples, the
sendMessageChunks log as (chat_id, text) pairs, and the ids of jobs driven to a
terminal status, in completion order. -/
structure DispatchState where
  jobs : List JobRow
  clock : Nat
  savedMessages : List (String × String × String)
  sentMessages : List (String × String)
  completed : List Nat
deriving DecidableEq, Repr

/-- Embeds the claim step of the loop body (lines 474-475): mark the selected job
running with a started_at timestamp. -/
def stepClaim (st : DispatchState) (j : JobRow) : DispatchState :=
  { st with jobs := stmtMarkJobRunning st.jobs st.clock j.id, clock := st.clock + 1 }

/-- Embeds the try/catch completion of the loop body (lines 478-511).  runJob stands
for the awaited JSON.parse / prompt validation / runClaudeCodeProcess composite on
the selected row; ok carries the resolved result text and error the thrown message.
On success the job is marked succeeded with the truncated result, the headered body
is persisted via saveMessage, and the notification is sent; the failure path is
symmetric with the failed status and error budget. -/
def stepFinish (runJob : JobRow → Except String String) (st : DispatchState) (j : JobRow) :
    DispatchState :=
  match runJob j with
  | .ok resultText =>
    let storedResult := truncateText resultText JOB_RESULT_MAX_CHARS
    { st with
        jobs := stmtMarkJobSucceeded st.jobs storedResult st.clock j.id
        clock := st.clock + 1
        savedMessages := st.savedMessages ++ [(j.chat_id, "assistant", successBody j storedResult)]
        sentMessages := st.sentMessages ++ [(j.chat_id, successNotification j storedResult)]
        completed := st.completed ++ [j.id] }
  | .error errorMsg =>
    let errorText := truncateText errorMsg JOB_ERROR_MAX_CHARS
    { st with
        jobs := stmtMarkJobFailed st.jobs errorText st.clock j.id
        clock := st.clock + 1
        savedMessages := st.savedMessages ++ [(j.chat_id, "assistant", failureBody j errorText)]
        sentMessages := st.sentMessages ++ [(j.chat_id, failureNotification j errorText)]
        completed := st.completed ++ [j.id] }

/-- Embeds the while loop of processJobQueue (lines 470-512), with fuel bounding the
iterations; the returned list is the trace of states observable at the suspension
points of the loop (before each claim, between claim and completion, and at exit). -/
def processLoop (runJob : JobRow → Except String String) :
    Nat → DispatchState → DispatchState × List DispatchState
  | 0, st => (st, [st])
  | fuel + 1, st =>
    match stmtSelectNextQueuedJob st.jobs with
    | none => (st, [st])
    | some j =>
      let st1 := stepClaim st j
      let st2 := stepFinish runJob st1 j
      let r := processLoop runJob fuel st2
      (r.1, st :: st1 :: r.2)

/-- Embeds processJobQueue (lines 465-516): the jobRunnerActive guard makes the call
a no-op when a dispatcher instance is already active, otherwise the loop drains every
queued job (one unit of fuel per queued row suffices) and the finally block releases
the flag, which the pure model renders by the loop simply returning. -/
def processJobQueue (runJob : JobRow → Except String String) (jobRunnerActive : Bool)
    (st : DispatchState) : DispatchState × List DispatchState :=
  if jobRunnerActive then (st, [st])
  else processLoop runJob (queuedCount st.jobs) st

/-- Ranks a status along the lifecycle direction (queued before running before the
terminal statuses). -/
def statusRank : JobStatus → Nat
  | .queued => 0
  | .running => 1
  | .succeeded => 2
  | .failed => 2

/-- The status of the row with the given id, as find? sees it. -/
def jobStatusIn (jobs : List JobRow) (jobId : Nat) : Option JobStatus :=
  (jobs.find? (fun j => decide (j.id = jobId))).map JobRow.status

/-- Per-job forward-only evolution between two dispatcher states. -/
def statusMonotone (s t : DispatchState) : Prop :=
  ∀ jobId a b, jobStatusIn s.jobs jobId = some a → jobStatusIn t.jobs jobId = some b →
    statusRank a ≤ statusRank b

/-- A queued row as freshly inserted by stmtInsertJob (lines 229-231, 452-458): both
texts and both transition timestamps are NULL, and it was created no later than the
given clock. -/
def freshQueued (clock : Nat) (j : JobRow) : Prop :=
  j.status = .queued → j.result_text = none ∧ j.error_text = none ∧
    j.started_at = none ∧ j.finished_at = none ∧ j.created_at ≤ clock

instance (clock : Nat) (j : JobRow) : Decidable (freshQueued clock j) :=
  inferInstanceAs (Decidable (j.status = .queued → j.result_text = none ∧
    j.error_text = none ∧ j.started_at = none ∧ j.finished_at = none ∧
    j.created_at ≤ clock))

/-- The terminal-state contract of one job row: a terminal status, exactly the
matching one of result_text / error_text populated, and finished after started after
created. -/
def terminalOk (j : JobRow) : Prop :=
  (j.status = .succeeded ∨ j.status = .failed) ∧
    (j.status = .succeeded → j.result_text.isSome ∧ j.error_text = none) ∧
    (j.status = .failed → j.error_text.isSome ∧ j.result_text = none) ∧
    ∃ s f, j.started_at = some s ∧ j.finished_at = some f ∧
      j.created_at ≤ s ∧ s < f

-- ── Demo inputs used by the witnesses and counterexamples ────────────

def demoJob (i : Nat) : JobRow :=
  { id := i, chat_id := "c", kind := "claude_code", status := .queued,
    input_json := "\x7b\x7d", request_excerpt := "req", result_text := none,
    error_text := none, created_at := 0, started_at := none, finished_at := none }

def demoState : DispatchState :=
  { jobs := [demoJob 1, demoJob 2], clock := 5, savedMessages := [],
    sentMessages := [], completed := [] }

def demoRunJob : JobRow → Except String String := fun _ => .ok "done"

def demoSTask : STask :=
  { id := 1, name := "t", cron_expression := "* * * * *", prompt := "p",
    chat_id := "c", enabled := true, last_run := none, next_run := some 0 }

/-- A minutely cron as cron_parser computes it: the next occurrence after now is the
next 60-second boundary. -/
def demoNextCron : String → Nat → Nat := fun _ now => now + 60

-- ═══════════════════════════ Theorems ═══════════════════════════════

-- ── Helper lemmas: job queries (C10) ─────────────────────────────────

theorem getJob_some_spec (jobId : Nat) (chatId : String) (jobs : List JobRow) (j : JobRow)
    (h : stmtGetJobByIdAndChat jobId chatId jobs = some j) :
    j.id = jobId ∧ j.chat_id = chatId ∧ j ∈ jobs := by
  unfold stmtGetJobByIdAndChat at h
  cases hf : jobs.filter (fun r => decide (r.id = jobId ∧ r.chat_id = chatId)) with
  | nil => rw [hf] at h; simp at h
  | cons x xs =>
    rw [hf] at h
    simp only [List.head?, Option.some.injEq] at h
    have hx : x ∈ jobs.filter (fun r => decide (r.id = jobId ∧ r.chat_id = chatId)) := by
      rw [hf]; exact List.mem_cons_self _ _
    have hm := List.mem_filter.mp hx
    have hd := of_decide_eq_true hm.2
    rw [← h]
    exact ⟨hd.1, hd.2, hm.1⟩

theorem getJob_none_spec (jobId : Nat) (chatId : String) (jobs : List JobRow)
    (h : ∀ j ∈ jobs, j.id = jobId → j.chat_id ≠ chatId) :
    stmtGetJobByIdAndChat jobId chatId jobs = none := by
  unfold stmtGetJobByIdAndChat
  have hnil : jobs.filter (fun r => decide (r.id = jobId ∧ r.chat_id = chatId)) = [] := by
    rw [List.filter_eq_nil_iff]
    intro a ha
    simp only [decide_eq_true_eq, not_and]
    exact h a ha
  rw [hnil]
  rfl

theorem listJobs_mem_spec (chatId : String) (jobs : List JobRow) (j : JobRow)
    (hj : j ∈ stmtListJobsByChat chatId jobs) : j.chat_id = chatId ∧ j ∈ jobs := by
  unfold stmtListJobsByChat at hj
  have h1 : j ∈ (jobs.filter (fun r => decide (r.chat_id = chatId))).insertionSort jobIdDesc :=
    List.take_subset _ _ hj
  have h2 : j ∈ jobs.filter (fun r => decide (r.chat_id = chatId)) :=
    (List.perm_insertionSort jobIdDesc _).subset h1
  have hm := List.mem_filter.mp h2
  exact ⟨of_decide_eq_true hm.2, hm.1⟩

theorem listJobs_top_spec (chatId : String) (jobs : List JobRow) (j k : JobRow)
    (hj : j ∈ stmtListJobsByChat chatId jobs) (hk : k ∈ jobs) (hkc : k.chat_id = chatId)
    (hknot : k ∉ stmtListJobsByChat chatId jobs) : k.id ≤ j.id := by
  unfold stmtListJobsByChat at hj hknot
  set sorted := (jobs.filter (fun r => decide (r.chat_id = chatId))).insertionSort jobIdDesc
    with hsorted
  have hsort : List.Sorted jobIdDesc sorted := List.sorted_insertionSort jobIdDesc _
  have hkmem : k ∈ sorted := by
    apply (List.perm_insertionSort jobIdDesc _).symm.subset
    exact List.mem_filter.mpr ⟨hk, decide_eq_true hkc⟩
  have hsplit : sorted = sorted.take 10 ++ sorted.drop 10 := (List.take_append_drop _ _).symm
  have hkdrop : k ∈ sorted.drop 10 := by
    rcases List.mem_append.mp (hsplit ▸ hkmem) with h | h
    · exact absurd h hknot
    · exact h
  have hpair : List.Pairwise jobIdDesc (sorted.take 10 ++ sorted.drop 10) := by
    rw [← hsplit]; exact hsort
  exact (List.pairwise_append.mp hpair).2.2 j hj k hkdrop

-- ── C10 ──────────────────────────────────────────────────────────────

/-- C10: job queries at the chat interface are scoped to the requesting conversation:
a /job lookup returns a row only when both the id and the chat_id match (a job with
the right id but another chat_id yields none), and the /jobs listing returns only
rows of the requesting chat, at most ten, and only rows no older (by id and, given
id-monotone creation times, by created_at) than every chat row it leaves out. -/
theorem C10_job_queries_scoped (jobId : Nat) (chatId : String) (jobs : List JobRow)
    (hmono : ∀ a ∈ jobs, ∀ b ∈ jobs, a.id ≤ b.id → a.created_at ≤ b.created_at) :
    (∀ j, stmtGetJobByIdAndChat jobId chatId jobs = some j →
        j.id = jobId ∧ j.chat_id = chatId ∧ j ∈ jobs) ∧
    ((∀ j ∈ jobs, j.id = jobId → j.chat_id ≠ chatId) →
        stmtGetJobByIdAndChat jobId chatId jobs = none) ∧
    (∀ j ∈ stmtListJobsByChat chatId jobs, j.chat_id = chatId ∧ j ∈ jobs) ∧
    (stmtListJobsByChat chatId jobs).length ≤ 10 ∧
    (∀ j ∈ stmtListJobsByChat chatId jobs, ∀ k ∈ jobs, k.chat_id = chatId →
        k ∉ stmtListJobsByChat chatId jobs → k.id ≤ j.id ∧ k.created_at ≤ j.created_at) := by
  refine ⟨fun j h => getJob_some_spec jobId chatId jobs j h,
         fun h => getJob_none_spec jobId chatId jobs h,
         fun j hj => listJobs_mem_spec chatId jobs j hj,
         ?_, ?_⟩
  · unfold stmtListJobsByChat
    exact List.length_take_le _ _
  · intro j hj k hk hkc hknot
    have hid := listJobs_top_spec chatId jobs j k hj hk hkc hknot
    have hjm := listJobs_mem_spec chatId jobs j hj
    exact ⟨hid, hmono k hk j hjm.2 hid⟩

/-- Witness for C10 at a concrete two-row table. -/
theorem C10_witness : (stmtListJobsByChat "c" [demoJob 1, demoJob 2]).length ≤ 10 :=
  (C10_job_queries_scoped 1 "c" [demoJob 1, demoJob 2] (by decide)).2.2.2.1

-- ── Helper lemmas: loadHistory (C9) ──────────────────────────────────

theorem mergeStep_chain (acc : List MessageParam) (m : MessageParam)
    (h : List.Chain' (fun a b => a.role ≠ b.role) acc) :
    List.Chain' (fun a b => a.role ≠ b.role) (mergeStep acc m) := by
  match acc with
  | [] => simp [mergeStep]
  | [last] =>
    simp only [mergeStep]
    by_cases hr : last.role = m.role
    · rw [if_pos hr]; simp
    · rw [if_neg hr]
      rw [List.chain'_cons]
      exact ⟨fun hc => hr hc.symm, h⟩
  | last :: r2 :: rs =>
    simp only [mergeStep]
    by_cases hr : last.role = m.role
    · rw [if_pos hr]
      rw [List.chain'_cons] at h ⊢
      exact ⟨h.1, h.2⟩
    · rw [if_neg hr]
      rw [List.chain'_cons]
      exact ⟨fun hc => hr hc.symm, h⟩

theorem foldl_mergeStep_chain (msgs : List MessageParam) :
    ∀ acc, List.Chain' (fun a b => a.role ≠ b.role) acc →
      List.Chain' (fun a b => a.role ≠ b.role) (msgs.foldl mergeStep acc) := by
  induction msgs with
  | nil => intro acc h; exact h
  | cons m ms ih => intro acc h; exact ih _ (mergeStep_chain acc m h)

theorem mergeAlternating_chain (msgs : List MessageParam) :
    List.Chain' (fun a b => a.role ≠ b.role) (mergeAlternating msgs) := by
  unfold mergeAlternating
  rw [List.chain'_reverse]
  refine List.Chain'.imp ?_ (foldl_mergeStep_chain msgs [] (by simp))
  intro a b hab
  exact fun hc => hab hc.symm

theorem dropLeadingInvalid_chain : ∀ (l : List MessageParam),
    List.Chain' (fun a b => a.role ≠ b.role) l →
    List.Chain' (fun a b => a.role ≠ b.role) (dropLeadingInvalid l) := by
  intro l
  induction l with
  | nil => intro h; exact h
  | cons first rest ih =>
    intro h
    simp only [dropLeadingInvalid]
    by_cases h1 : first.role ≠ MRole.user
    · rw [if_pos h1]; exact ih h.tail
    · rw [if_neg h1]
      by_cases h2 : contentHasToolResult first.content = true
      · simp only [h2, if_true]; exact ih h.tail
      · simp only [Bool.not_eq_true] at h2
        simp only [h2, Bool.false_eq_true, if_false]
        exact h

theorem dropLeadingInvalid_head : ∀ (l : List MessageParam),
    dropLeadingInvalid l = [] ∨ ∃ first rest, dropLeadingInvalid l = first :: rest ∧
      first.role = MRole.user ∧ contentHasToolResult first.content = false := by
  intro l
  induction l with
  | nil => left; rfl
  | cons first rest ih =>
    simp only [dropLeadingInvalid]
    by_cases h1 : first.role = MRole.user
    · by_cases h2 : contentHasToolResult first.content = true
      · simp only [h1, ne_eq, not_true_eq_false, if_false, h2, if_true]
        exact ih
      · simp only [Bool.not_eq_true] at h2
        right
        refine ⟨first, rest, ?_, h1, h2⟩
        simp [h1, h2]
    · simp only [ne_eq, h1, not_false_eq_true, if_true]
      exact ih

-- ── C9 ───────────────────────────────────────────────────────────────

/-- C9: for every stored row sequence, loadHistory returns a sequence whose adjacent
entries never share a role (strict user/assistant alternation over the two-valued
role type), tool_results rows are materialized as user-role entries, and the result
is empty or begins with a user-role message whose content holds no tool_result block
(an orphaned leading tool_results row is discarded). -/
theorem C9_loadHistory_strict_alternation (rows : List HistoryRow) :
    List.Chain' (fun a b => a.role ≠ b.role) (loadHistory rows) ∧
    (∀ c, rowToMessage ⟨"tool_results", c⟩ = some ⟨MRole.user, c⟩) ∧
    (loadHistory rows = [] ∨ ∃ first rest, loadHistory rows = first :: rest ∧
      first.role = MRole.user ∧ contentHasToolResult first.content = false) := by
  refine ⟨?_, ?_, ?_⟩
  · exact dropLeadingInvalid_chain _ (mergeAlternating_chain _)
  · intro c; rfl
  · exact dropLeadingInvalid_head _

-- ── Helper lemmas: chat serialization queue (C3) ─────────────────────

theorem chainLink_eq (p : PromiseState) (t : ChatTask) :
    chainLink p t = (PromiseState.fulfilled, t.writes) := by
  cases p <;> cases htf : t.fails <;> simp [chainLink, catchLog, thenRun, htf]

theorem chainFold_eq (st : PromiseState × List String) (t : ChatTask) :
    chainFold st t = (PromiseState.fulfilled, st.2 ++ t.writes) := by
  unfold chainFold
  rw [chainLink_eq]

theorem foldl_chainFold (tasks : List ChatTask) :
    ∀ w0, tasks.foldl chainFold (PromiseState.fulfilled, w0) =
      (PromiseState.fulfilled, w0 ++ tasks.flatMap ChatTask.writes) := by
  induction tasks with
  | nil => intro w0; simp
  | cons t ts ih =>
    intro w0
    rw [List.foldl_cons, chainFold_eq, ih (w0 ++ t.writes)]
    simp

theorem getQueue_setQueue_same (qs : ChatQueues) (c : String) (ts : List ChatTask) :
    getQueue (setQueue qs c ts) c = ts := by
  induction qs with
  | nil => simp [setQueue, getQueue, List.find?]
  | cons p rest ih =>
    simp only [setQueue]
    by_cases hc : p.1 == c
    · rw [if_pos hc]
      simp [getQueue, List.find?]
    · rw [if_neg hc]
      simp only [getQueue, List.find?, hc]
      simpa [getQueue] using ih

theorem getQueue_setQueue_other (qs : ChatQueues) (c d : String) (ts : List ChatTask)
    (hne : d ≠ c) : getQueue (setQueue qs d ts) c = getQueue qs c := by
  induction qs with
  | nil =>
    simp only [setQueue, getQueue, List.find?]
    have : (d == c) = false := beq_eq_false_iff_ne.mpr hne
    simp [this]
  | cons p rest ih =>
    simp only [setQueue]
    by_cases hd : p.1 == d
    · rw [if_pos hd]
      have hp : p.1 = d := by simpa using hd
      have h1 : (d == c) = false := beq_eq_false_iff_ne.mpr hne
      have h2 : (p.1 == c) = false := by rw [hp]; exact h1
      simp [getQueue, List.find?, h1, h2]
    · rw [if_neg hd]
      by_cases hc : p.1 == c
      · simp [getQueue, List.find?, hc]
      · simp only [getQueue, List.find?, hc] at ih ⊢
        simpa [getQueue] using ih

theorem getQueue_enqueue (qs : ChatQueues) (c d : String) (t : ChatTask) :
    getQueue (enqueueChatTask qs d t) c =
      if d = c then getQueue qs c ++ [t] else getQueue qs c := by
  unfold enqueueChatTask
  by_cases hdc : d = c
  · rw [if_pos hdc, hdc, getQueue_setQueue_same]
  · rw [if_neg hdc, getQueue_setQueue_other qs c d _ hdc]

theorem getQueue_enqueueAll (subs : List (String × ChatTask)) :
    ∀ (qs : ChatQueues) (c : String),
      getQueue (enqueueAll qs subs) c =
        getQueue qs c ++ (subs.filter (fun p => p.1 == c)).map Prod.snd := by
  induction subs with
  | nil => intro qs c; simp [enqueueAll]
  | cons p ps ih =>
    intro qs c
    have hstep : enqueueAll qs (p :: ps) = enqueueAll (enqueueChatTask qs p.1 p.2) ps := rfl
    rw [hstep, ih, getQueue_enqueue]
    by_cases hc : p.1 = c
    · have hb : (p.1 == c) = true := beq_iff_eq.mpr hc
      rw [if_pos hc]
      simp [List.filter_cons, hb]
    · have hb : (p.1 == c) = false := beq_eq_false_iff_ne.mpr hc
      rw [if_neg hc]
      simp [List.filter_cons, hb]

-- ── C3 ───────────────────────────────────────────────────────────────

/-- C3: the per-conversation queue collects the tasks submitted for each conversation
id in submission order (one FIFO chain per id); running a chain performs every
enqueued task, a failing task notwithstanding, concatenating their writes in
submission order, so all writes of the first i tasks precede all writes of the
remaining tasks; and the tail promise stored by enqueueChatTask is always fulfilled,
so no task failure ever surfaces to the caller of enqueueChatTask (which itself is a
pure state update that returns at once). -/
theorem C3_chat_queue_serialization (subs : List (String × ChatTask)) (chatId : String)
    (tasks : List ChatTask) (i : Nat) :
    getQueue (enqueueAll [] subs) chatId =
      (subs.filter (fun p => p.1 == chatId)).map Prod.snd ∧
    (runChain tasks).2 = tasks.flatMap ChatTask.writes ∧
    (runChain tasks).2 =
      (tasks.take i).flatMap ChatTask.writes ++ (tasks.drop i).flatMap ChatTask.writes ∧
    (runChain tasks).1 = PromiseState.fulfilled := by
  have hrun : runChain tasks = (PromiseState.fulfilled, tasks.flatMap ChatTask.writes) := by
    unfold runChain
    rw [foldl_chainFold tasks []]
    simp
  refine ⟨?_, ?_, ?_, ?_⟩
  · rw [getQueue_enqueueAll subs [] chatId]
    simp [getQueue, List.find?]
  · rw [hrun]
  · rw [hrun]
    have h2 : tasks = tasks.take i ++ tasks.drop i := (List.take_append_drop i tasks).symm
    conv_lhs => rw [h2]
    exact List.flatMap_append _ _ _
  · rw [hrun]

-- ── Helper lemmas: retry and agent loop (C8) ─────────────────────────

theorem callWithRetryGo_congr {α : Type} (f g : Nat → Except ApiErr α) (retries : Nat) :
    ∀ (rem i : Nat) (ds : List Nat), (∀ n, i ≤ n → n < i + rem → f n = g n) →
      callWithRetryGo f retries rem i ds = callWithRetryGo g retries rem i ds := by
  intro rem
  induction rem with
  | zero => intro i ds _; rfl
  | succ rem ih =>
    intro i ds hagree
    simp only [callWithRetryGo]
    rw [hagree i (le_refl i) (by omega)]
    cases g i with
    | ok v => rfl
    | error e =>
      show (if i = retries - 1 then ((Except.error e : Except ApiErr α), ds)
            else callWithRetryGo f retries rem (i + 1) (ds ++ [retryDelay e i])) =
          (if i = retries - 1 then (Except.error e, ds)
            else callWithRetryGo g retries rem (i + 1) (ds ++ [retryDelay e i]))
      by_cases hlast : i = retries - 1
      · rw [if_pos hlast, if_pos hlast]
      · rw [if_neg hlast, if_neg hlast]
        exact ih (i + 1) _ (fun n h1 h2 => hagree n (by omega) (by omega))

theorem runAgentLoopGo_error_surface (llm : Nat → Nat → Except ApiErr LLMResponse)
    (m : String) : ∀ (n rem i : Nat),
    (∀ j, i ≤ j → j < i + n → ∃ r, (callWithRetry (llm j)).1 = .ok r ∧
        (r.stop_reason = .pause_turn ∨ r.stop_reason = .tool_use)) →
    (∃ e, (callWithRetry (llm (i + n))).1 = .error e ∧ e.msg = m) →
    i + n < i + rem →
    runAgentLoopGo llm rem i = "API error: " ++ m := by
  intro n
  induction n with
  | zero =>
    intro rem i _ herr hlt
    obtain ⟨e, he, hm⟩ := herr
    rw [Nat.add_zero] at he
    cases rem with
    | zero => omega
    | succ rem =>
      simp only [runAgentLoopGo]
      rw [he]
      show "API error: " ++ e.msg = "API error: " ++ m
      rw [hm]
  | succ n ih =>
    intro rem i hpause herr hlt
    cases rem with
    | zero => omega
    | succ rem =>
      obtain ⟨r, hr, hstop⟩ := hpause i (le_refl i) (by omega)
      obtain ⟨stop, text⟩ := r
      simp only [runAgentLoopGo]
      rw [hr]
      have hshift : i + (n + 1) = (i + 1) + n := by omega
      rw [hshift] at herr
      have hpause2 : ∀ j, i + 1 ≤ j → j < (i + 1) + n →
          ∃ r, (callWithRetry (llm j)).1 = .ok r ∧
            (r.stop_reason = .pause_turn ∨ r.stop_reason = .tool_use) :=
        fun j h1 h2 => hpause j (by omega) (by omega)
      rcases hstop with h | h <;> simp only at h <;> rw [h] <;>
        exact ih rem (i + 1) hpause2 herr (by omega)

-- ── C8 ───────────────────────────────────────────────────────────────

/-- C8: three consecutive failures exhaust callWithRetry, which sleeps between
attempts with a doubling backoff (and backs rate-limit errors off five times as
long as generic ones at every position) and surfaces the last error after exactly
the bounded number of attempts — any two attempt oracles agreeing on indices 0..2
make callWithRetry indistinguishable; and an LLM failure that survives the retries
at some reachable iteration makes runAgentLoop return the plain API error string,
a normal return value rather than an exception. -/
theorem C8_retry_backoff_bounded_error_surface {α : Type}
    (attempts : Nat → Except ApiErr α) (e0 e1 e2 : ApiErr)
    (llmAttempts : Nat → Nat → Except ApiErr LLMResponse) (maxIter k : Nat) (m : String)
    (h0 : attempts 0 = .error e0) (h1 : attempts 1 = .error e1) (h2 : attempts 2 = .error e2)
    (hk : k < maxIter)
    (hpause : ∀ j, j < k → ∃ r, (callWithRetry (llmAttempts j)).1 = .ok r ∧
        (r.stop_reason = .pause_turn ∨ r.stop_reason = .tool_use))
    (herr : ∃ e, (callWithRetry (llmAttempts k)).1 = .error e ∧ e.msg = m) :
    callWithRetry attempts = (.error e2, [retryDelay e0 0, retryDelay e1 1]) ∧
    retryDelay e0 1 = 2 * retryDelay e0 0 ∧
    (∀ s i, retryDelay (.rateLimit s) i = 5 * retryDelay (.generic s) i) ∧
    (∀ f g : Nat → Except ApiErr α, (∀ i, i < 3 → f i = g i) →
        callWithRetry f = callWithRetry g) ∧
    runAgentLoop llmAttempts maxIter = "API error: " ++ m := by
  refine ⟨?_, ?_, ?_, ?_, ?_⟩
  · simp [callWithRetry, callWithRetryGo, h0, h1, h2]
  · cases e0 <;> simp [retryDelay]
  · intro s i
    simp only [retryDelay]
    ring
  · intro f g hagree
    exact callWithRetryGo_congr f g 3 3 0 [] (fun n hn1 hn2 => hagree n (by omega))
  · exact runAgentLoopGo_error_surface llmAttempts m k maxIter 0
      (fun j h1 h2 => hpause j (by omega)) (by simpa using herr) (by omega)

/-- Witness for C8: a call that always fails with a generic error surfaces after the
bounded retries, and the loop returns the API error string for it. -/
theorem C8_witness :
    runAgentLoop (fun _ _ => .error (.generic "boom")) 25 = "API error: boom" :=
  (C8_retry_backoff_bounded_error_surface (α := Unit)
    (fun _ => .error (.generic "x")) (.generic "x") (.generic "x") (.generic "x")
    (fun _ _ => .error (.generic "boom")) 25 0 "boom" rfl rfl rfl (by omega)
    (fun j hj => absurd hj (by omega))
    ⟨.generic "boom", rfl, rfl⟩).2.2.2.2

-- ── Helper lemmas: scheduler (C4) ────────────────────────────────────

theorem schedulerFold_split (nextCron : String → Nat → Nat) (now : Nat) :
    ∀ (l : List STask) (s0 : List STask) (ev0 : List TickEvent),
      l.foldl (schedTickStep nextCron now) (s0, ev0) =
        (l.foldl (fun s u => stmtUpdateTaskRun s now (nextCron u.cron_expression now) u.id) s0,
         ev0 ++ l.flatMap (taskTickEvents nextCron now)) := by
  intro l
  induction l with
  | nil => intro s0 ev0; simp
  | cons u us ih =>
    intro s0 ev0
    rw [List.foldl_cons, List.foldl_cons, ih]
    simp [schedTickStep, taskTickEvents]

theorem schedulerTick_events (nextCron : String → Nat → Nat) (now : Nat)
    (tasks : List STask) :
    (schedulerTick nextCron now tasks).2 =
      (tasks.filter (isDue now)).flatMap (taskTickEvents nextCron now) := by
  unfold schedulerTick
  rw [schedulerFold_split]
  simp

theorem schedulerTick_store (nextCron : String → Nat → Nat) (now : Nat)
    (tasks : List STask) :
    (schedulerTick nextCron now tasks).1 =
      (tasks.filter (isDue now)).foldl
        (fun s u => stmtUpdateTaskRun s now (nextCron u.cron_expression now) u.id) tasks := by
  unfold schedulerTick
  rw [schedulerFold_split]

theorem submit_filter_flatMap (nextCron : String → Nat → Nat) (now : Nat) (tid : Nat) :
    ∀ (l : List STask),
      (l.flatMap (taskTickEvents nextCron now)).filter (isSubmitFor tid) =
        (l.filter (fun u => u.id == tid)).map
          (fun u => TickEvent.submitTurn u.id u.chat_id u.prompt) := by
  intro l
  induction l with
  | nil => rfl
  | cons u us ih =>
    rw [List.flatMap_cons, List.filter_append, ih]
    by_cases h : (u.id == tid) = true
    · simp [taskTickEvents, List.filter_cons, isSubmitFor, h]
    · simp only [Bool.not_eq_true] at h
      simp [taskTickEvents, List.filter_cons, isSubmitFor, h]

theorem filter_id_single {l : List STask} (hnodup : (l.map STask.id).Nodup) (t : STask)
    (ht : t ∈ l) : l.filter (fun u => u.id == t.id) = [t] := by
  induction l with
  | nil => cases ht
  | cons u us ih =>
    rw [List.map_cons, List.nodup_cons] at hnodup
    rcases List.mem_cons.mp ht with rfl | hm
    · rw [List.filter_cons_of_pos (by simp)]
      have hrest : us.filter (fun u => u.id == t.id) = [] := by
        rw [List.filter_eq_nil_iff]
        intro v hv hb
        exact hnodup.1 ((beq_iff_eq.mp hb) ▸ List.mem_map_of_mem STask.id hv)
      rw [hrest]
    · have hne : (u.id == t.id) = false :=
        beq_eq_false_iff_ne.mpr (fun he => hnodup.1 (he ▸ List.mem_map_of_mem STask.id hm))
      rw [List.filter_cons_of_neg (by simp [hne])]
      exact ih hnodup.2 hm

theorem findTask_mem_nodup {l : List STask} (hnodup : (l.map STask.id).Nodup) (t : STask)
    (ht : t ∈ l) : findTask l t.id = some t := by
  unfold findTask
  induction l with
  | nil => cases ht
  | cons u us ih =>
    rw [List.map_cons, List.nodup_cons] at hnodup
    rcases List.mem_cons.mp ht with rfl | hm
    · exact List.find?_cons_of_pos _ (by simp)
    · have hne : (u.id == t.id) = false :=
        beq_eq_false_iff_ne.mpr (fun he => hnodup.1 (he ▸ List.mem_map_of_mem STask.id hm))
      rw [List.find?_cons_of_neg _ (by simp [hne])]
      exact ih hnodup.2 hm

theorem findTask_update_same (s : List STask) (a b tid : Nat) :
    findTask (stmtUpdateTaskRun s a b tid) tid =
      (findTask s tid).map (fun r => { r with last_run := some a, next_run := some b }) := by
  unfold findTask stmtUpdateTaskRun
  induction s with
  | nil => rfl
  | cons u us ih =>
    simp only [List.map_cons]
    by_cases h : u.id = tid
    · rw [if_pos h]
      rw [List.find?_cons_of_pos _ (by simp [h])]
      rw [List.find?_cons_of_pos _ (by simp [h])]
      rfl
    · rw [if_neg h]
      rw [List.find?_cons_of_neg _ (by simp [h])]
      rw [List.find?_cons_of_neg _ (by simp [h])]
      exact ih

theorem findTask_update_other (s : List STask) (a b tid tid2 : Nat) (h : tid ≠ tid2) :
    findTask (stmtUpdateTaskRun s a b tid2) tid = findTask s tid := by
  unfold findTask stmtUpdateTaskRun
  induction s with
  | nil => rfl
  | cons u us ih =>
    simp only [List.map_cons]
    by_cases hu : u.id = tid2
    · rw [if_pos hu]
      have hne : (u.id == tid) = false :=
        beq_eq_false_iff_ne.mpr (fun he => h (by rw [← he, hu]))
      rw [List.find?_cons_of_neg _ (by simp [hne])]
      rw [List.find?_cons_of_neg _ (by simp [hne])]
      exact ih
    · rw [if_neg hu]
      by_cases ht : (u.id == tid) = true
      · rw [List.find?_cons_of_pos _ (by exact ht), List.find?_cons_of_pos _ (by exact ht)]
      · simp only [Bool.not_eq_true] at ht
        rw [List.find?_cons_of_neg _ (by simp [ht])]
        rw [List.find?_cons_of_neg _ (by simp [ht])]
        exact ih

theorem findTask_foldUpdate_skip (nextCron : String → Nat → Nat) (now : Nat) :
    ∀ (l : List STask) (s : List STask) (tid : Nat), (∀ u ∈ l, u.id ≠ tid) →
      findTask (l.foldl
        (fun s u => stmtUpdateTaskRun s now (nextCron u.cron_expression now) u.id) s) tid =
        findTask s tid := by
  intro l
  induction l with
  | nil => intro s tid _; rfl
  | cons u us ih =>
    intro s tid hne
    rw [List.foldl_cons, ih _ tid (fun v hv => hne v (List.mem_cons_of_mem u hv))]
    exact findTask_update_other s now (nextCron u.cron_expression now) tid u.id
      (fun he => hne u (List.mem_cons_self u us) he.symm)

theorem stmtUpdateTaskRun_ids (s : List STask) (a b tid : Nat) :
    (stmtUpdateTaskRun s a b tid).map STask.id = s.map STask.id := by
  unfold stmtUpdateTaskRun
  rw [List.map_map]
  apply List.map_congr_left
  intro u _
  by_cases h : u.id = tid
  · simp [h]
  · simp [h]

theorem foldUpdate_ids (nextCron : String → Nat → Nat) (now : Nat) :
    ∀ (l : List STask) (s : List STask),
      ((l.foldl (fun s u => stmtUpdateTaskRun s now (nextCron u.cron_expression now) u.id) s).map
        STask.id) = s.map STask.id := by
  intro l
  induction l with
  | nil => intro s; rfl
  | cons u us ih =>
    intro s
    rw [List.foldl_cons, ih, stmtUpdateTaskRun_ids]

theorem schedulerTick_ids (nextCron : String → Nat → Nat) (now : Nat) (tasks : List STask) :
    ((schedulerTick nextCron now tasks).1.map STask.id) = tasks.map STask.id := by
  rw [schedulerTick_store]
  exact foldUpdate_ids nextCron now _ tasks

theorem schedulerTick_store_due (nextCron : String → Nat → Nat) (now : Nat)
    (tasks : List STask) (t : STask) (hnodup : (tasks.map STask.id).Nodup)
    (ht : t ∈ tasks) (hdue : isDue now t = true) :
    findTask (schedulerTick nextCron now tasks).1 t.id =
      some { t with last_run := some now,
                    next_run := some (nextCron t.cron_expression now) } := by
  rw [schedulerTick_store]
  have htd : t ∈ tasks.filter (isDue now) := List.mem_filter.mpr ⟨ht, hdue⟩
  obtain ⟨d1, d2, hsplit⟩ := List.append_of_mem htd
  have hdnodup : ((tasks.filter (isDue now)).map STask.id).Nodup :=
    ((List.filter_sublist tasks).map STask.id).nodup hnodup
  rw [hsplit] at hdnodup
  rw [List.map_append, List.map_cons] at hdnodup
  have hd1 : ∀ u ∈ d1, u.id ≠ t.id := by
    intro u hu he
    have hdisj := (List.nodup_append.mp hdnodup).2.2
    exact hdisj (List.mem_map_of_mem STask.id hu) (he ▸ List.mem_cons_self _ _)
  have hd2 : ∀ u ∈ d2, u.id ≠ t.id := by
    intro u hu he
    have := (List.nodup_append.mp hdnodup).2.1
    rw [List.nodup_cons] at this
    exact this.1 (he ▸ List.mem_map_of_mem STask.id hu)
  rw [hsplit, List.foldl_append, List.foldl_cons]
  rw [findTask_foldUpdate_skip nextCron now d2 _ t.id hd2]
  rw [findTask_update_same]
  rw [findTask_foldUpdate_skip nextCron now d1 tasks t.id hd1]
  rw [findTask_mem_nodup hnodup t ht]
  rfl

-- ── C4 ───────────────────────────────────────────────────────────────

/-- Counterexample to C4 as stated: with a minutely cron (next occurrence 60 seconds
after now, exactly what cron_parser computes for "* * * * *") the task due at the
tick at time 0 is claimed there and then selected AGAIN at the following tick at
time 60, so "cannot be selected again on the following tick" fails even though the
store write preceded the submission. -/
theorem C4_counterexample :
    TickEvent.submitTurn 1 "c" "p" ∈ (schedulerTick demoNextCron 0 [demoSTask]).2 ∧
    TickEvent.submitTurn 1 "c" "p" ∈
      (schedulerTick demoNextCron 60 (schedulerTick demoNextCron 0 [demoSTask]).1).2 := by
  decide

/-- C4 amended: on every tick, each enabled due task is claimed exactly once — the
advanced last_run / next_run is written to the store before the submission event for
that task — and selection at a later tick depends only on the advanced next_run
recorded in the store (not on whether the triggered turn finished): whenever the
cron advance lands beyond the following tick time, the task is not submitted there. -/
theorem C4_scheduler_claim_first (nextCron : String → Nat → Nat) (now now2 : Nat)
    (tasks : List STask) (t : STask) (hnodup : (tasks.map STask.id).Nodup)
    (ht : t ∈ tasks) (hdue : isDue now t = true) :
    (schedulerTick nextCron now tasks).2 =
      (tasks.filter (isDue now)).flatMap (taskTickEvents nextCron now) ∧
    ((schedulerTick nextCron now tasks).2.filter (isSubmitFor t.id)).length = 1 ∧
    findTask (schedulerTick nextCron now tasks).1 t.id =
      some { t with last_run := some now,
                    next_run := some (nextCron t.cron_expression now) } ∧
    (now2 < nextCron t.cron_expression now → ∀ c p,
      TickEvent.submitTurn t.id c p ∉
        (schedulerTick nextCron now2 (schedulerTick nextCron now tasks).1).2) := by
  have hdnodup : ((tasks.filter (isDue now)).map STask.id).Nodup :=
    ((List.filter_sublist tasks).map STask.id).nodup hnodup
  have htd : t ∈ tasks.filter (isDue now) := List.mem_filter.mpr ⟨ht, hdue⟩
  refine ⟨schedulerTick_events nextCron now tasks, ?_, ?_, ?_⟩
  · rw [schedulerTick_events, submit_filter_flatMap, filter_id_single hdnodup t htd]
    rfl
  · exact schedulerTick_store_due nextCron now tasks t hnodup ht hdue
  · intro hlate c p hmem
    set store := (schedulerTick nextCron now tasks).1 with hstore
    have hsnodup : (store.map STask.id).Nodup := by
      rw [hstore, schedulerTick_ids]; exact hnodup
    rw [schedulerTick_events] at hmem
    obtain ⟨u, hu, hev⟩ := List.mem_flatMap.mp hmem
    have humem := List.mem_filter.mp hu
    simp only [taskTickEvents, List.mem_cons, List.mem_singleton] at hev
    rcases hev with hev | hev | hev
    · exact TickEvent.noConfusion hev
    · have huid : u.id = t.id := by
        have := congrArg (fun e => match e with
          | TickEvent.submitTurn i _ _ => i
          | TickEvent.updateTaskRun i _ _ => i) hev
        simpa using this.symm
      have hufind : findTask store u.id = some u := findTask_mem_nodup hsnodup u humem.1
      rw [huid] at hufind
      rw [schedulerTick_store_due nextCron now tasks t hnodup ht hdue] at hufind
      have hueq : u = { t with last_run := some now,
                               next_run := some (nextCron t.cron_expression now) } :=
        (Option.some.inj hufind).symm
      have : isDue now2 u = false := by
        rw [hueq]
        simp only [isDue]
        have : decide (nextCron t.cron_expression now ≤ now2) = false :=
          decide_eq_false (by omega)
        simp [this]
      rw [this] at humem
      exact Bool.false_ne_true humem.2
    · cases hev

/-- Witness for C4 at the concrete minutely task: the claim-first conjunctions hold
at the tick at time 0. -/
theorem C4_witness :
    ((schedulerTick demoNextCron 0 [demoSTask]).2.filter (isSubmitFor 1)).length = 1 :=
  (C4_scheduler_claim_first demoNextCron 0 60 [demoSTask] demoSTask (by decide)
    (by decide) (by decide)).2.1

-- ── Helper lemmas: subprocess runner (C5, C6) ────────────────────────

theorem stepEvent_data_flags (parseJson : String → Option StreamMsg) (st : RunnerState)
    (e : ProcEvent) (he : isDataEvent e = true) :
    (stepEvent parseJson st e).settled = st.settled ∧
    (stepEvent parseJson st e).timedOut = st.timedOut ∧
    (stepEvent parseJson st e).outcome = st.outcome ∧
    (stepEvent parseJson st e).signals = st.signals := by
  cases e <;> simp_all [stepEvent, isDataEvent]

theorem stepEvent_settled (parseJson : String → Option StreamMsg) (st : RunnerState)
    (e : ProcEvent) (hs : st.settled = true) :
    (stepEvent parseJson st e).settled = true ∧
    (stepEvent parseJson st e).outcome = st.outcome ∧
    (stepEvent parseJson st e).signals = st.signals := by
  cases e <;> simp_all [stepEvent, isDataEvent]

theorem foldl_data_flags (parseJson : String → Option StreamMsg) :
    ∀ (evs : List ProcEvent) (st : RunnerState), (∀ e ∈ evs, isDataEvent e = true) →
      (evs.foldl (stepEvent parseJson) st).settled = st.settled ∧
      (evs.foldl (stepEvent parseJson) st).timedOut = st.timedOut ∧
      (evs.foldl (stepEvent parseJson) st).outcome = st.outcome ∧
      (evs.foldl (stepEvent parseJson) st).signals = st.signals := by
  intro evs
  induction evs with
  | nil => intro st _; exact ⟨rfl, rfl, rfl, rfl⟩
  | cons e es ih =>
    intro st hall
    rw [List.foldl_cons]
    have h1 := stepEvent_data_flags parseJson st e (hall e (List.mem_cons_self _ _))
    have h2 := ih (stepEvent parseJson st e) (fun x hx => hall x (List.mem_cons_of_mem e hx))
    exact ⟨h2.1.trans h1.1, h2.2.1.trans h1.2.1, h2.2.2.1.trans h1.2.2.1,
      h2.2.2.2.trans h1.2.2.2⟩

theorem foldl_settled (parseJson : String → Option StreamMsg) :
    ∀ (evs : List ProcEvent) (st : RunnerState), st.settled = true →
      (evs.foldl (stepEvent parseJson) st).outcome = st.outcome ∧
      (evs.foldl (stepEvent parseJson) st).signals = st.signals := by
  intro evs
  induction evs with
  | nil => intro st _; exact ⟨rfl, rfl⟩
  | cons e es ih =>
    intro st hs
    rw [List.foldl_cons]
    have h1 := stepEvent_settled parseJson st e hs
    have h2 := ih (stepEvent parseJson st e) h1.1
    exact ⟨h2.1.trans h1.2.1, h2.2.trans h1.2.2⟩

theorem string_mk_ne_empty {l : List Char} (h : l ≠ []) : String.mk l ≠ "" := by
  intro hc
  exact h (congrArg String.data hc)

theorem truncateText_ne_empty (s : String) (n : Nat) (hs : s ≠ "") (hn : 0 < n) :
    truncateText s n ≠ "" := by
  unfold truncateText
  split
  · exact hs
  · apply string_mk_ne_empty
    intro hc
    rcases List.take_eq_nil_iff.mp hc with h | h
    · omega
    · exact hs (by cases s; simp_all)

theorem sliceLast_ne_empty (s : String) (n : Nat) (hs : s ≠ "") (hn : 0 < n) :
    sliceLast s n ≠ "" := by
  unfold sliceLast
  apply string_mk_ne_empty
  intro hc
  have hlen : s.data.length ≤ s.length - n := List.drop_eq_nil_iff.mp hc
  have hpos : 0 < s.data.length := by
    cases hd : s.data with
    | nil => exact absurd (by cases s; simp_all) hs
    | cons c cs => simp [hd]
  have hll : s.length = s.data.length := rfl
  omega

theorem zeroExitResult_ne_empty (acc : ClaudeStreamAccumulator) : zeroExitResult acc ≠ "" := by
  unfold zeroExitResult jsOrElse
  by_cases h1 : acc.resultText = ""
  · rw [if_pos h1]
    by_cases h2 : sliceLast acc.stdoutTail 5000 = ""
    · rw [if_pos h2]
      decide
    · rw [if_neg h2]
      exact truncateText_ne_empty _ _ h2 (by decide)
  · rw [if_neg h1]
    exact truncateText_ne_empty _ _ h1 (by decide)

-- ── C5 ───────────────────────────────────────────────────────────────

/-- C5: whenever the timeout timer fires before the child closes (only stream data
arrives in between), the child is sent SIGTERM and a SIGKILL follows, and the run
settles as the timeout rejection no matter what exit code the close event later
reports — exit code zero included — and for whatever events follow; feeding that
rejection through the dispatcher completion step marks the job failed with the
timeout-specific message via stmtMarkJobFailed and notifies the failure. -/
theorem C5_timeout_rejection (parseJson : String → Option StreamMsg)
    (pre mid post : List ProcEvent) (code : Option Int) (signal : Option String)
    (hpre : ∀ e ∈ pre, isDataEvent e = true) (hmid : ∀ e ∈ mid, isDataEvent e = true) :
    (runEvents parseJson
        (pre ++ ProcEvent.timerFire :: (mid ++ ProcEvent.close code signal :: post))).outcome
      = some (.error "Claude Code timed out after 300 seconds.") ∧
    "SIGTERM" ∈ (runEvents parseJson
        (pre ++ ProcEvent.timerFire :: (mid ++ ProcEvent.close code signal :: post))).signals ∧
    "SIGKILL" ∈ (runEvents parseJson
        (pre ++ ProcEvent.timerFire :: (mid ++ ProcEvent.close code signal :: post))).signals ∧
    (∀ (st : DispatchState) (j : JobRow),
      stepFinish (fun _ => .error "Claude Code timed out after 300 seconds.") st j =
        { st with
            jobs := stmtMarkJobFailed st.jobs
              (truncateText "Claude Code timed out after 300 seconds." JOB_ERROR_MAX_CHARS)
              st.clock j.id
            clock := st.clock + 1
            savedMessages := st.savedMessages ++ [(j.chat_id, "assistant",
              failureBody j (truncateText "Claude Code timed out after 300 seconds."
                JOB_ERROR_MAX_CHARS))]
            sentMessages := st.sentMessages ++ [(j.chat_id,
              failureNotification j (truncateText "Claude Code timed out after 300 seconds."
                JOB_ERROR_MAX_CHARS))]
            completed := st.completed ++ [j.id] }) := by
  unfold runEvents
  rw [List.foldl_append, List.foldl_cons, List.foldl_append, List.foldl_cons]
  have hA := foldl_data_flags parseJson pre initRunnerState hpre
  set stA := pre.foldl (stepEvent parseJson) initRunnerState with hstA
  have hAsettled : stA.settled = false := hA.1
  have hT : (stepEvent parseJson stA ProcEvent.timerFire).settled = false ∧
      (stepEvent parseJson stA ProcEvent.timerFire).timedOut = true ∧
      (stepEvent parseJson stA ProcEvent.timerFire).outcome = stA.outcome ∧
      (stepEvent parseJson stA ProcEvent.timerFire).signals =
        stA.signals ++ ["SIGTERM", "SIGKILL"] := by
    simp [stepEvent, hAsettled]
  set stT := stepEvent parseJson stA ProcEvent.timerFire with hstT
  have hB := foldl_data_flags parseJson mid stT hmid
  set stB := mid.foldl (stepEvent parseJson) stT with hstB
  have hBsettled : stB.settled = false := hB.1.trans hT.1
  have hBtimed : stB.timedOut = true := hB.2.1.trans hT.2.1
  have hC : (stepEvent parseJson stB (ProcEvent.close code signal)).settled = true ∧
      (stepEvent parseJson stB (ProcEvent.close code signal)).outcome =
        some (.error "Claude Code timed out after 300 seconds.") ∧
      (stepEvent parseJson stB (ProcEvent.close code signal)).signals = stB.signals := by
    simp [stepEvent, hBsettled, hBtimed]
  set stC := stepEvent parseJson stB (ProcEvent.close code signal) with hstC
  have hD := foldl_settled parseJson post stC hC.1
  refine ⟨hD.1.trans hC.2.1, ?_, ?_, ?_⟩
  · rw [hD.2, hC.2.2, hB.2.2.2, hT.2.2.2]
    simp
  · rw [hD.2, hC.2.2, hB.2.2.2, hT.2.2.2]
    simp
  · intro st j
    rfl

/-- Witness for C5: the timer firing before a zero-exit close still rejects with the
timeout error and both kill signals were sent. -/
theorem C5_witness :
    (runEvents (fun _ => none)
        ([ProcEvent.stdoutData "partial"] ++ ProcEvent.timerFire ::
          ([] ++ ProcEvent.close (some 0) none :: []))).outcome
      = some (.error "Claude Code timed out after 300 seconds.") :=
  (C5_timeout_rejection (fun _ => none) [ProcEvent.stdoutData "partial"] [] []
    (some 0) none (by decide) (by decide)).1

-- ── C6 ───────────────────────────────────────────────────────────────

/-- C6: a close with exit code zero that arrives before any timer or error event
(only stream data precedes it) always resolves the promise — never rejects — with a
non-empty result; the result selection falls back from the last parsed update
(resultText) to the bounded stdout tail to the explicit placeholder, and a parsed
final-result line overwrites resultText with its payload. -/
theorem C6_zero_exit_resolves (parseJson : String → Option StreamMsg)
    (pre post : List ProcEvent) (signal : Option String)
    (hpre : ∀ e ∈ pre, isDataEvent e = true) :
    (∃ r, (runEvents parseJson (pre ++ ProcEvent.close (some 0) signal :: post)).outcome
        = some (.ok r) ∧ r ≠ "") ∧
    (∀ acc : ClaudeStreamAccumulator,
      (acc.resultText ≠ "" →
        zeroExitResult acc = truncateText acc.resultText JOB_RESULT_MAX_CHARS) ∧
      (acc.resultText = "" → acc.stdoutTail ≠ "" →
        zeroExitResult acc = truncateText (sliceLast acc.stdoutTail 5000) JOB_RESULT_MAX_CHARS) ∧
      (acc.resultText = "" → acc.stdoutTail = "" → zeroExitResult acc = "(no result)")) ∧
    (∀ line acc r, parseJson line = some (.resultMsg r) →
      (parseClaudeStreamLine parseJson line acc).resultText = r) := by
  refine ⟨?_, ?_, ?_⟩
  · unfold runEvents
    rw [List.foldl_append, List.foldl_cons]
    have hA := foldl_data_flags parseJson pre initRunnerState hpre
    set stA := pre.foldl (stepEvent parseJson) initRunnerState with hstA
    have hAsettled : stA.settled = false := hA.1
    have hAtimed : stA.timedOut = false := hA.2.1
    set accC := if (String.mk stA.stdoutBuffer).trim ≠ "" then
        parseClaudeStreamLine parseJson (String.mk stA.stdoutBuffer).trim stA.acc
      else stA.acc with haccC
    have hC : (stepEvent parseJson stA (ProcEvent.close (some 0) signal)).settled = true ∧
        (stepEvent parseJson stA (ProcEvent.close (some 0) signal)).outcome =
          some (.ok (zeroExitResult accC)) := by
      rw [haccC]
      simp [stepEvent, hAsettled, hAtimed]
    have hD := foldl_settled parseJson post _ hC.1
    exact ⟨zeroExitResult accC, hD.1.trans hC.2, zeroExitResult_ne_empty accC⟩
  · intro acc
    refine ⟨?_, ?_, ?_⟩
    · intro h1
      unfold zeroExitResult jsOrElse
      rw [if_neg h1]
    · intro h1 h2
      unfold zeroExitResult jsOrElse
      rw [if_pos h1, if_neg (sliceLast_ne_empty acc.stdoutTail 5000 h2 (by decide))]
    · intro h1 h2
      unfold zeroExitResult jsOrElse
      rw [if_pos h1, if_pos (by rw [h2]; rfl)]
      decide
  · intro line acc r h
    unfold parseClaudeStreamLine
    rw [h]

/-- Witness for C6: a zero-exit run whose whole stdout is unparsable still resolves
with a non-empty result. -/
theorem C6_witness :
    ∃ r, (runEvents (fun _ => none)
        ([ProcEvent.stdoutData "garbage\n"] ++ ProcEvent.close (some 0) none :: [])).outcome
      = some (.ok r) ∧ r ≠ "" :=
  (C6_zero_exit_resolves (fun _ => none) [ProcEvent.stdoutData "garbage\n"] [] none
    (by decide)).1

-- ── Helper lemmas: dispatcher row updates (C1, C2, C7) ───────────────

theorem updateById_no_match (jobs : List JobRow) (jid : Nat) (f : JobRow → JobRow)
    (h : ∀ u ∈ jobs, u.id ≠ jid) : updateById jobs jid f = jobs := by
  unfold updateById
  induction jobs with
  | nil => rfl
  | cons u us ih =>
    rw [List.map_cons, if_neg (h u (List.mem_cons_self _ _))]
    rw [ih (fun v hv => h v (List.mem_cons_of_mem u hv))]

theorem updateById_decomp (l1 l2 : List JobRow) (mid : JobRow) (jid : Nat)
    (f : JobRow → JobRow) (hmid : mid.id = jid) (hne : ∀ u ∈ l1 ++ l2, u.id ≠ jid) :
    updateById (l1 ++ mid :: l2) jid f = l1 ++ f mid :: l2 := by
  unfold updateById
  rw [List.map_append, List.map_cons, if_pos hmid]
  have h1 : updateById l1 jid f = l1 :=
    updateById_no_match l1 jid f (fun u hu => hne u (List.mem_append_left l2 hu))
  have h2 : updateById l2 jid f = l2 :=
    updateById_no_match l2 jid f (fun u hu => hne u (List.mem_append_right l1 hu))
  unfold updateById at h1 h2
  rw [h1, h2]

theorem jobRow_exists_decomp {jobs : List JobRow} (hnodup : (jobs.map JobRow.id).Nodup)
    {j : JobRow} (hj : j ∈ jobs) :
    ∃ l1 l2, jobs = l1 ++ j :: l2 ∧ (∀ u ∈ l1 ++ l2, u.id ≠ j.id) := by
  obtain ⟨l1, l2, rfl⟩ := List.append_of_mem hj
  refine ⟨l1, l2, rfl, ?_⟩
  intro u hu he
  rw [List.map_append, List.map_cons] at hnodup
  rcases List.mem_append.mp hu with h | h
  · exact (List.nodup_append.mp hnodup).2.2 (List.mem_map_of_mem JobRow.id h)
      (he ▸ List.mem_cons_self _ _)
  · have h2 := (List.nodup_append.mp hnodup).2.1
    rw [List.nodup_cons] at h2
    exact h2.1 (he ▸ List.mem_map_of_mem JobRow.id h)

theorem jobRow_find_mem_nodup {jobs : List JobRow} (hnodup : (jobs.map JobRow.id).Nodup)
    {j : JobRow} (hj : j ∈ jobs) :
    jobs.find? (fun u => decide (u.id = j.id)) = some j := by
  induction jobs with
  | nil => cases hj
  | cons u us ih =>
    rw [List.map_cons, List.nodup_cons] at hnodup
    rcases List.mem_cons.mp hj with rfl | hm
    · exact List.find?_cons_of_pos _ (by simp)
    · have hne : u.id ≠ j.id := fun he => hnodup.1 (he ▸ List.mem_map_of_mem JobRow.id hm)
      rw [List.find?_cons_of_neg _ (by simp [hne])]
      exact ih hnodup.2 hm

theorem jobRow_mem_unique {jobs : List JobRow} (hnodup : (jobs.map JobRow.id).Nodup)
    {u v : JobRow} (hu : u ∈ jobs) (hv : v ∈ jobs) (hid : u.id = v.id) : u = v := by
  have h1 := jobRow_find_mem_nodup hnodup hu
  have h2 := jobRow_find_mem_nodup hnodup hv
  rw [hid] at h1
  rw [h1] at h2
  exact Option.some.inj h2

theorem finishFn_id (runJob : JobRow → Except String String) (j : JobRow) (t : Nat) :
    (finishFn runJob j t).id = j.id := by
  unfold finishFn
  cases runJob j <;> rfl

theorem finishFn_status (runJob : JobRow → Except String String) (j : JobRow) (t : Nat) :
    (finishFn runJob j t).status = .succeeded ∨ (finishFn runJob j t).status = .failed := by
  unfold finishFn
  cases runJob j
  · right; rfl
  · left; rfl

theorem finishFn_not_queued (runJob : JobRow → Except String String) (j : JobRow) (t : Nat) :
    ¬(finishFn runJob j t).status = .queued := by
  rcases finishFn_status runJob j t with h | h <;> rw [h] <;> intro hc <;> cases hc

theorem finishFn_not_running (runJob : JobRow → Except String String) (j : JobRow) (t : Nat) :
    ¬(finishFn runJob j t).status = .running := by
  rcases finishFn_status runJob j t with h | h <;> rw [h] <;> intro hc <;> cases hc

theorem freshQueued_mono {c c2 : Nat} (h : c ≤ c2) {j : JobRow} (hf : freshQueued c j) :
    freshQueued c2 j := by
  intro hq
  obtain ⟨h1, h2, h3, h4, h5⟩ := hf hq
  exact ⟨h1, h2, h3, h4, le_trans h5 h⟩

theorem finishFn_terminalOk (runJob : JobRow → Except String String) (j : JobRow) (t : Nat)
    (hfresh : freshQueued t j) (hq : j.status = .queued) :
    terminalOk (finishFn runJob j t) := by
  obtain ⟨hres, herr, hsta, hfin, hcre⟩ := hfresh hq
  unfold finishFn terminalOk
  cases hrun : runJob j with
  | ok r =>
    refine ⟨Or.inl rfl, fun _ => ⟨rfl, rfl⟩, fun hc => absurd hc (by intro hc2; cases hc2), ?_⟩
    exact ⟨t, t + 1, rfl, rfl, hcre, by omega⟩
  | error m =>
    refine ⟨Or.inr rfl, fun hc => absurd hc (by intro hc2; cases hc2), fun _ => ⟨rfl, ?_⟩, ?_⟩
    · show (markRunningFn t j).result_text = none
      exact hres
    · exact ⟨t, t + 1, rfl, rfl, hcre, by omega⟩

theorem select_some_spec {jobs : List JobRow} {j : JobRow}
    (h : stmtSelectNextQueuedJob jobs = some j) :
    j ∈ jobs ∧ j.status = .queued ∧ ∀ k ∈ jobs, k.status = .queued → j.id ≤ k.id := by
  unfold stmtSelectNextQueuedJob at h
  have hm : j ∈ jobs.filter (fun u => decide (u.status = .queued)) :=
    List.argmin_mem h
  have hmem := List.mem_filter.mp hm
  refine ⟨hmem.1, of_decide_eq_true hmem.2, ?_⟩
  intro k hk hkq
  exact List.le_of_mem_argmin
    (List.mem_filter.mpr ⟨hk, decide_eq_true hkq⟩) h

theorem select_none_iff (jobs : List JobRow) :
    stmtSelectNextQueuedJob jobs = none ↔ queuedCount jobs = 0 := by
  unfold stmtSelectNextQueuedJob queuedCount
  rw [List.argmin_eq_none, List.countP_eq_length_filter, List.length_eq_zero]

theorem stepClaim_jobs (st : DispatchState) (j : JobRow) (l1 l2 : List JobRow)
    (hjobs : st.jobs = l1 ++ j :: l2) (hne : ∀ u ∈ l1 ++ l2, u.id ≠ j.id) :
    (stepClaim st j).jobs = l1 ++ markRunningFn st.clock j :: l2 := by
  show stmtMarkJobRunning st.jobs st.clock j.id = _
  rw [stmtMarkJobRunning, hjobs]
  exact updateById_decomp l1 l2 j j.id _ rfl hne

theorem processIter_eq (runJob : JobRow → Except String String) (st : DispatchState)
    (j : JobRow) (l1 l2 : List JobRow)
    (hjobs : st.jobs = l1 ++ j :: l2) (hne : ∀ u ∈ l1 ++ l2, u.id ≠ j.id) :
    stepFinish runJob (stepClaim st j) j =
      { jobs := l1 ++ finishFn runJob j st.clock :: l2
        clock := st.clock + 2
        savedMessages := st.savedMessages ++ [(j.chat_id, "assistant", dispatchBody runJob j)]
        sentMessages := st.sentMessages ++ [(j.chat_id, dispatchNotification runJob j)]
        completed := st.completed ++ [j.id] } := by
  have hclaim := stepClaim_jobs st j l1 l2 hjobs hne
  cases hrun : runJob j with
  | ok r =>
    simp only [stepFinish, hrun, finishFn, dispatchBody, dispatchNotification]
    rw [show (stepClaim st j).clock = st.clock + 1 from rfl,
        show (stepClaim st j).savedMessages = st.savedMessages from rfl,
        show (stepClaim st j).sentMessages = st.sentMessages from rfl,
        show (stepClaim st j).completed = st.completed from rfl,
        stmtMarkJobSucceeded, hclaim,
        updateById_decomp l1 l2 (markRunningFn st.clock j) j.id _ rfl hne]
  | error m =>
    simp only [stepFinish, hrun, finishFn, dispatchBody, dispatchNotification]
    rw [show (stepClaim st j).clock = st.clock + 1 from rfl,
        show (stepClaim st j).savedMessages = st.savedMessages from rfl,
        show (stepClaim st j).sentMessages = st.sentMessages from rfl,
        show (stepClaim st j).completed = st.completed from rfl,
        stmtMarkJobFailed, hclaim,
        updateById_decomp l1 l2 (markRunningFn st.clock j) j.id _ rfl hne]

theorem queuedCount_decomp (l1 l2 : List JobRow) (x : JobRow) :
    queuedCount (l1 ++ x :: l2) =
      queuedCount l1 + queuedCount l2 + (if x.status = .queued then 1 else 0) := by
  unfold queuedCount
  rw [List.countP_append, List.countP_cons]
  by_cases h : x.status = .queued <;> simp [h]; omega

theorem runningCount_decomp (l1 l2 : List JobRow) (x : JobRow) :
    runningCount (l1 ++ x :: l2) =
      runningCount l1 + runningCount l2 + (if x.status = .running then 1 else 0) := by
  unfold runningCount
  rw [List.countP_append, List.countP_cons]
  by_cases h : x.status = .running <;> simp [h]; omega

theorem processLoop_final (runJob : JobRow → Except String String) :
    ∀ (fuel : Nat) (st : DispatchState),
      (st.jobs.map JobRow.id).Nodup →
      queuedCount st.jobs ≤ fuel →
      ((∀ q ∈ st.jobs, q.status = .queued →
          ∃ t, st.clock ≤ t ∧
            finishFn runJob q t ∈ (processLoop runJob fuel st).1.jobs ∧
            q.id ∈ (processLoop runJob fuel st).1.completed ∧
            (q.chat_id, "assistant", dispatchBody runJob q) ∈
              (processLoop runJob fuel st).1.savedMessages ∧
            (q.chat_id, dispatchNotification runJob q) ∈
              (processLoop runJob fuel st).1.sentMessages) ∧
       (∀ q ∈ st.jobs, ¬q.status = .queued → q ∈ (processLoop runJob fuel st).1.jobs) ∧
       queuedCount (processLoop runJob fuel st).1.jobs = 0 ∧
       (processLoop runJob fuel st).1.jobs.map JobRow.id = st.jobs.map JobRow.id ∧
       (∃ δ, (processLoop runJob fuel st).1.completed = st.completed ++ δ ∧
         List.Pairwise (· < ·) δ ∧
         (∀ c ∈ δ, ∃ q, q ∈ st.jobs ∧ q.status = .queued ∧ q.id = c)) ∧
       (∃ σ, (processLoop runJob fuel st).1.savedMessages = st.savedMessages ++ σ) ∧
       (∃ τ, (processLoop runJob fuel st).1.sentMessages = st.sentMessages ++ τ)) := by
  intro fuel
  induction fuel with
  | zero =>
    intro st hnodup hfuel
    have hq0 : queuedCount st.jobs = 0 := Nat.le_zero.mp hfuel
    have hnoq : ∀ q ∈ st.jobs, ¬q.status = .queued := by
      intro q hq hqs
      have hz := List.countP_eq_zero.mp hq0 q hq
      simp at hz
      exact hz hqs
    refine ⟨fun q hq hqs => absurd hqs (hnoq q hq), fun q hq _ => hq, hq0, rfl,
      ⟨[], ?_, ?_, ?_⟩, ⟨[], ?_⟩, ⟨[], ?_⟩⟩ <;> simp [processLoop]
  | succ fuel ih =>
    intro st hnodup hfuel
    cases hsel : stmtSelectNextQueuedJob st.jobs with
    | none =>
      have hq0 : queuedCount st.jobs = 0 := (select_none_iff st.jobs).mp hsel
      have hnoq : ∀ q ∈ st.jobs, ¬q.status = .queued := by
        intro q hq hqs
        have hz := List.countP_eq_zero.mp hq0 q hq
        simp at hz
        exact hz hqs
      simp only [processLoop, hsel]
      refine ⟨fun q hq hqs => absurd hqs (hnoq q hq), fun q hq _ => hq, ?_, ?_,
        ⟨[], ?_, ?_, ?_⟩, ⟨[], ?_⟩, ⟨[], ?_⟩⟩ <;> simp [hq0]
    | some j =>
      obtain ⟨hjmem, hjq, hjmin⟩ := select_some_spec hsel
      obtain ⟨l1, l2, hjobs, hne⟩ := jobRow_exists_decomp hnodup hjmem
      have hiter := processIter_eq runJob st j l1 l2 hjobs hne
      set st2 := stepFinish runJob (stepClaim st j) j with hst2
      have hids2 : st2.jobs.map JobRow.id = st.jobs.map JobRow.id := by
        rw [hiter, hjobs]
        simp [finishFn_id]
      have hnodup2 : (st2.jobs.map JobRow.id).Nodup := by rw [hids2]; exact hnodup
      have hcount : queuedCount st.jobs =
          queuedCount l1 + queuedCount l2 + 1 := by
        rw [hjobs, queuedCount_decomp, if_pos hjq]
      have hcount2 : queuedCount st2.jobs = queuedCount l1 + queuedCount l2 := by
        rw [hiter]
        show queuedCount (l1 ++ finishFn runJob j st.clock :: l2) = _
        rw [queuedCount_decomp, if_neg (finishFn_not_queued runJob j st.clock)]
        omega
      have hfuel2 : queuedCount st2.jobs ≤ fuel := by omega
      have ihb := ih st2 hnodup2 hfuel2
      have hloop1 : (processLoop runJob (fuel + 1) st).1 = (processLoop runJob fuel st2).1 := by
        simp only [processLoop, hsel]
      obtain ⟨ih1, ih2, ih3, ih4, ⟨δ2, hδ2, hδ2p, hδ2m⟩, ⟨σ2, hσ2⟩, ⟨τ2, hτ2⟩⟩ := ihb
      have hclock2 : st2.clock = st.clock + 2 := by rw [hiter]
      have hcomp2 : st2.completed = st.completed ++ [j.id] := by rw [hiter]
      have hsaved2 : st2.savedMessages =
          st.savedMessages ++ [(j.chat_id, "assistant", dispatchBody runJob j)] := by
        rw [hiter]
      have hsent2 : st2.sentMessages =
          st.sentMessages ++ [(j.chat_id, dispatchNotification runJob j)] := by
        rw [hiter]
      have hjobs2 : st2.jobs = l1 ++ finishFn runJob j st.clock :: l2 := by rw [hiter]
      -- queued rows of st2 are the queued rows of l1 ++ l2, unchanged
      have hmem2_of_side : ∀ q, q ∈ l1 ++ l2 → q ∈ st2.jobs := by
        intro q hq
        rw [hjobs2]
        rcases List.mem_append.mp hq with h | h
        · exact List.mem_append_left _ h
        · exact List.mem_append_right _ (List.mem_cons_of_mem _ h)
      have hside_of_st : ∀ q, q ∈ st.jobs → q = j ∨ q ∈ l1 ++ l2 := by
        intro q hq
        rw [hjobs] at hq
        rcases List.mem_append.mp hq with h | h
        · exact Or.inr (List.mem_append_left _ h)
        · rcases List.mem_cons.mp h with h | h
          · exact Or.inl h
          · exact Or.inr (List.mem_append_right _ h)
      have hst_of_side : ∀ q, q ∈ l1 ++ l2 → q ∈ st.jobs := by
        intro q hq
        rw [hjobs]
        rcases List.mem_append.mp hq with h | h
        · exact List.mem_append_left _ h
        · exact List.mem_append_right _ (List.mem_cons_of_mem _ h)
      have hmem2_of_st2 : ∀ q, q ∈ st2.jobs → q.status = .queued → q ∈ l1 ++ l2 := by
        intro q hq hqs
        rw [hjobs2] at hq
        rcases List.mem_append.mp hq with h | h
        · exact List.mem_append_left _ h
        · rcases List.mem_cons.mp h with h | h
          · exact absurd (h ▸ hqs) (finishFn_not_queued runJob j st.clock)
          · exact List.mem_append_right _ h
      rw [hloop1]
      refine ⟨?_, ?_, ih3, ih4.trans hids2, ?_, ?_, ?_⟩
      · -- every queued job of st completes with messages
        intro q hq hqs
        rcases hside_of_st q hq with rfl | hside
        · -- q is the selected job
          refine ⟨st.clock, le_refl _, ?_, ?_, ?_, ?_⟩
          · refine ih2 (finishFn runJob q st.clock) ?_ (finishFn_not_queued runJob q st.clock)
            rw [hjobs2]
            exact List.mem_append_right _ (List.mem_cons_self _ _)
          · have hin : q.id ∈ st2.completed := by
              rw [hcomp2]; exact List.mem_append_right _ (List.mem_singleton.mpr rfl)
            rw [hδ2]
            exact List.mem_append_left _ hin
          · have hin : (q.chat_id, "assistant", dispatchBody runJob q) ∈ st2.savedMessages := by
              rw [hsaved2]
              exact List.mem_append_right _ (List.mem_singleton.mpr rfl)
            rw [hσ2]
            exact List.mem_append_left _ hin
          · have hin : (q.chat_id, dispatchNotification runJob q) ∈ st2.sentMessages := by
              rw [hsent2]
              exact List.mem_append_right _ (List.mem_singleton.mpr rfl)
            rw [hτ2]
            exact List.mem_append_left _ hin
        · have hq2 : q ∈ st2.jobs := hmem2_of_side q hside
          obtain ⟨t, ht, hfin, hcompm, hsav, hsen⟩ := ih1 q hq2 hqs
          refine ⟨t, ?_, hfin, hcompm, hsav, hsen⟩
          have : st.clock ≤ st2.clock := by rw [hclock2]; omega
          omega
      · intro q hq hqs
        rcases hside_of_st q hq with rfl | hside
        · exact absurd hjq hqs
        · exact ih2 q (hmem2_of_side q hside) hqs
      · refine ⟨j.id :: δ2, ?_, ?_, ?_⟩
        · rw [hδ2, hcomp2, List.append_assoc]
          rfl
        · rw [List.pairwise_cons]
          refine ⟨?_, hδ2p⟩
          intro c hc
          obtain ⟨q2, hq2mem, hq2q, hq2id⟩ := hδ2m c hc
          have hq2side : q2 ∈ l1 ++ l2 := hmem2_of_st2 q2 hq2mem hq2q
          have hq2st : q2 ∈ st.jobs := hst_of_side q2 hq2side
          have hle := hjmin q2 hq2st hq2q
          have hne2 := hne q2 hq2side
          omega
        · intro c hc
          rcases List.mem_cons.mp hc with rfl | hc2
          · exact ⟨j, hjmem, hjq, rfl⟩
          · obtain ⟨q2, hq2mem, hq2q, hq2id⟩ := hδ2m c hc2
            exact ⟨q2, hst_of_side q2 (hmem2_of_st2 q2 hq2mem hq2q), hq2q, hq2id⟩
      · refine ⟨(j.chat_id, "assistant", dispatchBody runJob j) :: σ2, ?_⟩
        rw [hσ2, hsaved2, List.append_assoc]
        rfl
      · refine ⟨(j.chat_id, dispatchNotification runJob j) :: τ2, ?_⟩
        rw [hτ2, hsent2, List.append_assoc]
        rfl

theorem processLoop_running_le_one (runJob : JobRow → Except String String) :
    ∀ (fuel : Nat) (st : DispatchState),
      (st.jobs.map JobRow.id).Nodup → runningCount st.jobs = 0 →
      (∀ s ∈ (processLoop runJob fuel st).2, runningCount s.jobs ≤ 1) ∧
      runningCount (processLoop runJob fuel st).1.jobs = 0 := by
  intro fuel
  induction fuel with
  | zero =>
    intro st _ h0
    refine ⟨?_, h0⟩
    intro s hs
    simp only [processLoop, List.mem_singleton] at hs
    rw [hs, h0]
    omega
  | succ fuel ih =>
    intro st hnodup h0
    cases hsel : stmtSelectNextQueuedJob st.jobs with
    | none =>
      simp only [processLoop, hsel, List.mem_singleton]
      refine ⟨?_, h0⟩
      intro s hs
      rw [hs, h0]
      omega
    | some j =>
      obtain ⟨hjmem, hjq, hjmin⟩ := select_some_spec hsel
      obtain ⟨l1, l2, hjobs, hne⟩ := jobRow_exists_decomp hnodup hjmem
      have hiter := processIter_eq runJob st j l1 l2 hjobs hne
      set st2 := stepFinish runJob (stepClaim st j) j with hst2
      have hclaimjobs := stepClaim_jobs st j l1 l2 hjobs hne
      have hl12 : runningCount l1 + runningCount l2 = 0 := by
        have : runningCount st.jobs =
            runningCount l1 + runningCount l2 + (if j.status = .running then 1 else 0) := by
          rw [hjobs]; exact runningCount_decomp l1 l2 j
        rw [hjq] at this
        simp at this
        omega
      have hrun1 : runningCount (stepClaim st j).jobs = 1 := by
        rw [hclaimjobs, runningCount_decomp]
        have : (markRunningFn st.clock j).status = .running := rfl
        rw [if_pos this]
        omega
      have hrun2 : runningCount st2.jobs = 0 := by
        rw [hiter]
        show runningCount (l1 ++ finishFn runJob j st.clock :: l2) = 0
        rw [runningCount_decomp, if_neg (finishFn_not_running runJob j st.clock)]
        omega
      have hids2 : st2.jobs.map JobRow.id = st.jobs.map JobRow.id := by
        rw [hiter, hjobs]
        simp [finishFn_id]
      have hnodup2 : (st2.jobs.map JobRow.id).Nodup := by rw [hids2]; exact hnodup
      have ihb := ih st2 hnodup2 hrun2
      simp only [processLoop, hsel]
      refine ⟨?_, ihb.2⟩
      intro s hs
      rcases List.mem_cons.mp hs with rfl | hs2
      · rw [h0]; omega
      · rcases List.mem_cons.mp hs2 with rfl | hs3
        · rw [hrun1]
        · exact ihb.1 s hs3

theorem processLoop_trace_head (runJob : JobRow → Except String String) (fuel : Nat)
    (st : DispatchState) : ∃ tl, (processLoop runJob fuel st).2 = st :: tl := by
  cases fuel with
  | zero => exact ⟨[], rfl⟩
  | succ fuel =>
    cases hsel : stmtSelectNextQueuedJob st.jobs with
    | none =>
      refine ⟨[], ?_⟩
      simp [processLoop, hsel]
    | some j =>
      refine ⟨stepClaim st j ::
        (processLoop runJob fuel (stepFinish runJob (stepClaim st j) j)).2, ?_⟩
      simp [processLoop, hsel]

theorem statusRank_le_two (s : JobStatus) : statusRank s ≤ 2 := by
  cases s <;> simp [statusRank]

theorem jobStatusIn_updateById (jobs : List JobRow) (jid : Nat) (f : JobRow → JobRow)
    (hf : ∀ x, (f x).id = x.id) (i : Nat) :
    jobStatusIn (updateById jobs jid f) i =
      (jobs.find? (fun u => decide (u.id = i))).map
        (fun r => if r.id = jid then (f r).status else r.status) := by
  unfold jobStatusIn updateById
  rw [List.find?_map]
  have hpred : ((fun u => decide (u.id = i)) ∘ (fun u => if u.id = jid then f u else u)) =
      (fun u => decide (u.id = i)) := by
    funext u
    by_cases h : u.id = jid <;> simp [h, hf]
  rw [hpred, Option.map_map]
  cases jobs.find? (fun u => decide (u.id = i)) with
  | none => rfl
  | some r =>
    simp only [Option.map_some', Function.comp_apply]
    by_cases h : r.id = jid <;> simp [h]

theorem statusMonotone_stepClaim (st : DispatchState) (j : JobRow)
    (hnodup : (st.jobs.map JobRow.id).Nodup) (hjmem : j ∈ st.jobs)
    (hjq : j.status = .queued) :
    statusMonotone st (stepClaim st j) := by
  intro i a b ha hb
  rw [show (stepClaim st j).jobs = updateById st.jobs j.id (markRunningFn st.clock) from rfl,
      jobStatusIn_updateById st.jobs j.id (markRunningFn st.clock) (fun x => rfl) i] at hb
  unfold jobStatusIn at ha
  cases hfind : st.jobs.find? (fun u => decide (u.id = i)) with
  | none => rw [hfind] at ha; cases ha
  | some r =>
    rw [hfind] at ha hb
    simp only [Option.map_some', Option.some.injEq] at ha hb
    by_cases hr : r.id = j.id
    · rw [if_pos hr] at hb
      have hrj : r = j :=
        jobRow_mem_unique hnodup (List.mem_of_find?_eq_some hfind) hjmem hr
      rw [← hb, ← ha, hrj, hjq]
      show statusRank .queued ≤ statusRank (markRunningFn st.clock j).status
      simp [markRunningFn, statusRank]
    · rw [if_neg hr] at hb
      rw [← ha, ← hb]

theorem statusMonotone_stepFinish (runJob : JobRow → Except String String)
    (st1 : DispatchState) (j : JobRow) :
    statusMonotone st1 (stepFinish runJob st1 j) := by
  intro i a b ha hb
  cases hrun : runJob j with
  | ok r =>
    rw [show (stepFinish runJob st1 j).jobs = updateById st1.jobs j.id
          (markSucceededFn (truncateText r JOB_RESULT_MAX_CHARS) st1.clock) from by
        simp only [stepFinish, hrun]; rfl,
        jobStatusIn_updateById st1.jobs j.id
          (markSucceededFn (truncateText r JOB_RESULT_MAX_CHARS) st1.clock) (fun x => rfl) i] at hb
    unfold jobStatusIn at ha
    cases hfind : st1.jobs.find? (fun u => decide (u.id = i)) with
    | none => rw [hfind] at ha; cases ha
    | some r2 =>
      rw [hfind] at ha hb
      simp only [Option.map_some', Option.some.injEq] at ha hb
      by_cases hr : r2.id = j.id
      · rw [if_pos hr] at hb
        rw [← hb]
        show statusRank a ≤ statusRank .succeeded
        exact statusRank_le_two a
      · rw [if_neg hr] at hb
        rw [← ha, ← hb]
  | error m =>
    rw [show (stepFinish runJob st1 j).jobs = updateById st1.jobs j.id
          (markFailedFn (truncateText m JOB_ERROR_MAX_CHARS) st1.clock) from by
        simp only [stepFinish, hrun]; rfl,
        jobStatusIn_updateById st1.jobs j.id
          (markFailedFn (truncateText m JOB_ERROR_MAX_CHARS) st1.clock) (fun x => rfl) i] at hb
    unfold jobStatusIn at ha
    cases hfind : st1.jobs.find? (fun u => decide (u.id = i)) with
    | none => rw [hfind] at ha; cases ha
    | some r2 =>
      rw [hfind] at ha hb
      simp only [Option.map_some', Option.some.injEq] at ha hb
      by_cases hr : r2.id = j.id
      · rw [if_pos hr] at hb
        rw [← hb]
        show statusRank a ≤ statusRank .failed
        exact statusRank_le_two a
      · rw [if_neg hr] at hb
        rw [← ha, ← hb]

theorem processLoop_chain_monotone (runJob : JobRow → Except String String) :
    ∀ (fuel : Nat) (st : DispatchState), (st.jobs.map JobRow.id).Nodup →
      List.Chain' statusMonotone (processLoop runJob fuel st).2 := by
  intro fuel
  induction fuel with
  | zero => intro st _; simp [processLoop]
  | succ fuel ih =>
    intro st hnodup
    cases hsel : stmtSelectNextQueuedJob st.jobs with
    | none => simp [processLoop, hsel]
    | some j =>
      obtain ⟨hjmem, hjq, hjmin⟩ := select_some_spec hsel
      obtain ⟨l1, l2, hjobs, hne⟩ := jobRow_exists_decomp hnodup hjmem
      have hiter := processIter_eq runJob st j l1 l2 hjobs hne
      set st2 := stepFinish runJob (stepClaim st j) j with hst2
      have hids2 : st2.jobs.map JobRow.id = st.jobs.map JobRow.id := by
        rw [hiter, hjobs]
        simp [finishFn_id]
      have hnodup2 : (st2.jobs.map JobRow.id).Nodup := by rw [hids2]; exact hnodup
      obtain ⟨tl, htl⟩ := processLoop_trace_head runJob fuel st2
      have hchain2 := ih st2 hnodup2
      simp only [processLoop, hsel]
      rw [← hst2, htl]
      rw [List.chain'_cons, List.chain'_cons]
      refine ⟨statusMonotone_stepClaim st j hnodup hjmem hjq, ?_, ?_⟩
      · exact statusMonotone_stepFinish runJob (stepClaim st j) j
      · rw [← htl]
        exact hchain2

-- ── C1 ───────────────────────────────────────────────────────────────

/-- C1: on a store of inserted jobs with distinct ids and nothing running, a
dispatcher run completes the queued jobs in FIFO insertion order (the completion
list is strictly increasing in job id and contains every queued job), drains the
queue, and at every observable point of the execution at most one job is in the
running status; the jobRunnerActive guard makes a call with the flag already set a
no-op, which is what keeps a second dispatcher instance out of the loop. -/
theorem C1_dispatcher_fifo_single_flight (runJob : JobRow → Except String String)
    (st : DispatchState)
    (hnodup : (st.jobs.map JobRow.id).Nodup)
    (hnorun : runningCount st.jobs = 0)
    (hcomp : st.completed = []) :
    processJobQueue runJob true st = (st, [st]) ∧
    List.Pairwise (· < ·) (processJobQueue runJob false st).1.completed ∧
    (∀ q ∈ st.jobs, q.status = .queued →
        q.id ∈ (processJobQueue runJob false st).1.completed) ∧
    queuedCount (processJobQueue runJob false st).1.jobs = 0 ∧
    (∀ s ∈ (processJobQueue runJob false st).2, runningCount s.jobs ≤ 1) := by
  obtain ⟨h1, h2, h3, h4, ⟨δ, hδ, hδp, hδm⟩, _, _⟩ :=
    processLoop_final runJob (queuedCount st.jobs) st hnodup (le_refl _)
  have hrun := processLoop_running_le_one runJob (queuedCount st.jobs) st hnodup hnorun
  have hpj : processJobQueue runJob false st = processLoop runJob (queuedCount st.jobs) st :=
    rfl
  refine ⟨rfl, ?_, ?_, ?_, ?_⟩
  · rw [hpj, hδ, hcomp]
    simpa using hδp
  · intro q hq hqs
    rw [hpj]
    obtain ⟨t, _, _, hc, _, _⟩ := h1 q hq hqs
    exact hc
  · rw [hpj]
    exact h3
  · rw [hpj]
    exact hrun.1

/-- Witness for C1 on a two-job store: the completion order is strictly ascending. -/
theorem C1_witness :
    List.Pairwise (· < ·) (processJobQueue demoRunJob false demoState).1.completed :=
  (C1_dispatcher_fifo_single_flight demoRunJob demoState (by decide) (by decide)
    (by decide)).2.1

-- ── C2 ───────────────────────────────────────────────────────────────

/-- C2: along the dispatcher execution trace every job of the store only moves
forward in the lifecycle order queued, running, terminal (statusMonotone chains the
trace), and every job the run completes satisfies the terminal contract: its status
is succeeded or failed, result_text is populated and error_text cleared exactly when
it succeeded, error_text populated and result_text empty exactly when it failed, and
created_at ≤ started_at < finished_at. -/
theorem C2_job_lifecycle (runJob : JobRow → Except String String) (st : DispatchState)
    (hnodup : (st.jobs.map JobRow.id).Nodup)
    (hfresh : ∀ j ∈ st.jobs, freshQueued st.clock j)
    (hcomp : st.completed = []) :
    List.Chain' statusMonotone (processJobQueue runJob false st).2 ∧
    (∀ w ∈ (processJobQueue runJob false st).1.jobs,
        w.id ∈ (processJobQueue runJob false st).1.completed → terminalOk w) := by
  have hpj : processJobQueue runJob false st = processLoop runJob (queuedCount st.jobs) st :=
    rfl
  obtain ⟨h1, h2, h3, h4, ⟨δ, hδ, hδp, hδm⟩, _, _⟩ :=
    processLoop_final runJob (queuedCount st.jobs) st hnodup (le_refl _)
  refine ⟨?_, ?_⟩
  · rw [hpj]
    exact processLoop_chain_monotone runJob (queuedCount st.jobs) st hnodup
  · intro w hw hwc
    rw [hpj] at hw hwc
    rw [hδ, hcomp] at hwc
    simp only [List.nil_append] at hwc
    obtain ⟨q, hqmem, hqq, hqid⟩ := hδm w.id hwc
    obtain ⟨t, ht, hfin, _, _, _⟩ := h1 q hqmem hqq
    have hnodupF :
        ((processLoop runJob (queuedCount st.jobs) st).1.jobs.map JobRow.id).Nodup := by
      rw [h4]
      exact hnodup
    have hweq : w = finishFn runJob q t := by
      apply jobRow_mem_unique hnodupF hw hfin
      rw [finishFn_id, hqid]
    rw [hweq]
    exact finishFn_terminalOk runJob q t (freshQueued_mono ht (hfresh q hqmem)) hqq

/-- Witness for C2 on the two-job store: the trace chains forward-only. -/
theorem C2_witness :
    List.Chain' statusMonotone (processJobQueue demoRunJob false demoState).2 :=
  (C2_job_lifecycle demoRunJob demoState (by decide) (by decide) (by decide)).1

-- ── C7 ───────────────────────────────────────────────────────────────

/-- Counterexample to C7 as stated: the dispatcher persists the headered
notification body as the conversation history record, but the text it sends to the
conversation is a different string — the sent text carries the job id and the
result, not the header with the kind and the original request excerpt — so the claim
that it "sends that body" fails on the very first completed job. -/
theorem C7_counterexample :
    (processJobQueue demoRunJob false demoState).1.savedMessages.head? =
      some ("c", "assistant",
        "[Background job #1 completed | kind=claude_code | original request: req]\n\ndone") ∧
    (processJobQueue demoRunJob false demoState).1.sentMessages.head? =
      some ("c", "✅ Job #1 completed\n\ndone") ∧
    ("c", "[Background job #1 completed | kind=claude_code | original request: req]\n\ndone") ∉
      (processJobQueue demoRunJob false demoState).1.sentMessages := by
  decide

/-- C7 amended: for every queued job the dispatcher run persists, as an assistant
history record for the job conversation, the notification body whose header
identifies the job id, kind and original request excerpt, and sends to the same
conversation a notification message that identifies the job id and carries the same
stored result or error text — but the sent message does not repeat the kind or the
request excerpt. -/
theorem C7_terminal_notifications (runJob : JobRow → Except String String)
    (st : DispatchState) (hnodup : (st.jobs.map JobRow.id).Nodup) :
    ∀ q ∈ st.jobs, q.status = .queued →
      ((q.chat_id, "assistant", dispatchBody runJob q) ∈
          (processJobQueue runJob false st).1.savedMessages ∧
       (q.chat_id, dispatchNotification runJob q) ∈
          (processJobQueue runJob false st).1.sentMessages ∧
       (∀ r, runJob q = .ok r →
          dispatchBody runJob q =
            successHeader q ++ "\n\n" ++ truncateText r JOB_RESULT_MAX_CHARS ∧
          dispatchNotification runJob q =
            "✅ Job #" ++ toString q.id ++ " completed\n\n" ++
              truncateText r JOB_RESULT_MAX_CHARS) ∧
       (∀ m, runJob q = .error m →
          dispatchBody runJob q =
            failureHeader q ++ "\n\n" ++ truncateText m JOB_ERROR_MAX_CHARS ∧
          dispatchNotification runJob q =
            "❌ Job #" ++ toString q.id ++ " failed\n\n" ++
              truncateText m JOB_ERROR_MAX_CHARS)) := by
  intro q hq hqs
  obtain ⟨h1, _, _, _, _, _, _⟩ :=
    processLoop_final runJob (queuedCount st.jobs) st hnodup (le_refl _)
  obtain ⟨t, _, _, _, hsav, hsen⟩ := h1 q hq hqs
  refine ⟨hsav, hsen, ?_, ?_⟩
  · intro r hrun
    unfold dispatchBody dispatchNotification successBody successNotification
    rw [hrun]
    exact ⟨rfl, rfl⟩
  · intro m hrun
    unfold dispatchBody dispatchNotification failureBody failureNotification
    rw [hrun]
    exact ⟨rfl, rfl⟩

/-- Witness for C7 on the two-job store: the headered body is persisted for job 1. -/
theorem C7_witness :
    ("c", "assistant", dispatchBody demoRunJob (demoJob 1)) ∈
      (processJobQueue demoRunJob false demoState).1.savedMessages :=
  (C7_terminal_notifications demoRunJob demoState (by decide) (demoJob 1) (by decide)
    (by decide)).1

end Minion
